/-
  Verification of the version-bump tool's core against its specification.

  The development shallowly embeds the two subsystems the claims are about:

  * the git repository readiness validator
    (`src/internal/git/manager.go`: path validation, submodule status-line
    parsing, and the six-step `ValidateRepositoryStatus` pipeline), and
  * the multi-format version registry
    (`src/internal/version/manager.go`: detection with and without a `.bump`
    override, version-sync checking, and in-place version updating).

  External effects (the `git` subprocess calls, the filesystem, and the
  TOML/JSON/regexp library primitives) are modelled as explicit environment
  parameters; every piece of control flow that lives in the repository's own
  Go code is translated directly.  Go byte strings are modelled as Lean
  `String`/`List Char`; the scope of every string claim is ASCII data, where
  Go's byte indexing and Lean's character indexing agree.
-/
import Mathlib

namespace Bump

/-! ## Go string primitives

Small executable models of the Go standard-library string operations the
source uses (`strings.HasPrefix`, `strings.Contains`, `strings.Fields`,
`strings.TrimSpace`, `strings.Split`, `strings.HasSuffix`).  They operate on
`List Char`; for the ASCII data the claims quantify over they agree with the
byte-level Go functions. -/

/-- `unicode.IsSpace` restricted to Latin-1, which covers all inputs the
claims are about (Go also treats some higher Unicode code points as space). -/
def goIsSpace (c : Char) : Bool :=
  c == ' ' || c == '\t' || c == '\n' || c == '\x0b' || c == '\x0c' ||
    c == '\r' || c == '\x85' || c == '\xa0'

/-- Whether `sub` is a prefix of `l` (model of `strings.HasPrefix`). -/
def hasPre : List Char → List Char → Bool
  | [], _ => true
  | _ :: _, [] => false
  | a :: s, b :: t => a == b && hasPre s t

/-- Whether `sub` occurs as a contiguous substring of `l`
(model of `strings.Contains`). -/
def containsSub (sub : List Char) : List Char → Bool
  | [] => hasPre sub []
  | c :: cs => hasPre sub (c :: cs) || containsSub sub cs

/-- `strings.HasPrefix s pre` on Lean strings. -/
def goHasPrefixStr (s pre : String) : Bool :=
  hasPre pre.data s.data

/-- `strings.HasSuffix s suf` on Lean strings. -/
def goHasSuffixStr (s suf : String) : Bool :=
  hasPre suf.data.reverse s.data.reverse

/-- `strings.Contains s sub` on Lean strings. -/
def goContainsStr (s sub : String) : Bool :=
  containsSub sub.data s.data

/-- `strings.TrimSpace` on character lists. -/
def trimChars (l : List Char) : List Char :=
  ((l.dropWhile goIsSpace).reverse.dropWhile goIsSpace).reverse

/-- `strings.TrimSpace` on Lean strings. -/
def goTrim (s : String) : String :=
  String.mk (trimChars s.data)

/-- `strings.Split s (String.singleton sep)` for a one-character separator:
splits on every occurrence of `sep`, keeping empty fields. -/
def splitOnChar (sep : Char) : List Char → List (List Char)
  | [] => [[]]
  | c :: cs =>
    if c = sep then [] :: splitOnChar sep cs
    else
      match splitOnChar sep cs with
      | [] => [[c]]
      | h :: t => (c :: h) :: t

/-- Joining with a one-character separator (used to build the modelled
multi-line outputs of git commands). -/
def intercalateChar (sep : Char) : List (List Char) → List Char
  | [] => []
  | [x] => x
  | x :: y :: rest => x ++ sep :: intercalateChar sep (y :: rest)

/-- Join a list of lines with newlines into one string. -/
def joinLines (lines : List String) : String :=
  String.mk (intercalateChar '\n' (lines.map String.data))

/-- `strings.Fields`: maximal runs of non-space characters. -/
def goFieldsAux : List Char → List (List Char)
  | [] => []
  | c :: cs =>
    if goIsSpace c then goFieldsAux cs
    else (c :: cs.takeWhile (fun d => !goIsSpace d)) ::
      goFieldsAux (cs.dropWhile (fun d => !goIsSpace d))
termination_by l => l.length
decreasing_by
  · simp only [List.length_cons]; omega
  · simp only [List.length_cons]
    refine Nat.lt_succ_of_le ?_
    induction cs with
    | nil => simp
    | cons a t ih =>
      rw [List.dropWhile_cons]
      split
      · exact Nat.le_succ_of_le ih
      · exact le_rfl

/-- `strings.Fields` on Lean strings. -/
def goFields (s : String) : List String :=
  (goFieldsAux s.data).map String.mk

namespace Git

/-! ## Git manager data model (`src/internal/git/manager.go`) -/

/-- `CommitHashLength` from the source. -/
def CommitHashLength : Nat := 40

/-- `Submodule` (fields `Name`, `Path`, `URL`, `Commit`). -/
structure Submodule where
  Name : String
  Path : String
  URL : String
  Commit : String
  deriving Repr, DecidableEq

/-- `ValidationStep` (fields `Name`, `Description`, `Index`, `Total`). -/
structure ValidationStep where
  Name : String
  Description : String
  Index : Nat
  Total : Nat
  deriving Repr, DecidableEq

/-- `ValidationResult` (fields `Step`, `Success`, `Warnings`, `Errors`). -/
structure ValidationResult where
  Step : ValidationStep
  Success : Bool
  Warnings : List String
  Errors : List String
  deriving Repr, DecidableEq

/-- `ValidationSummary` (fields `Results`, `HasErrors`, `HasWarnings`,
`CanProceed`). -/
structure ValidationSummary where
  Results : List ValidationResult
  HasErrors : Bool
  HasWarnings : Bool
  CanProceed : Bool
  deriving Repr, DecidableEq

/-- `validateSubmodulePath` (manager.go:26-53).  Returns `some msg` for the
error case and `none` for acceptance.  The drive-letter test mirrors Go's
`len(path) >= 2 && path[1] == ':'` (byte index 1; character index agrees on
the ASCII inputs in scope). -/
def validateSubmodulePath (path : String) : Option String :=
  if path = "" then some "submodule path cannot be empty"
  else if goHasPrefixStr path "/" then
    some ("submodule path cannot be absolute: " ++ path)
  else if goContainsStr path ".." then
    some ("submodule path contains path traversal: " ++ path)
  else if 2 ≤ path.data.length ∧ path.data[1]? = some ':' then
    some ("submodule path cannot contain drive letters: " ++ path)
  else if goHasPrefixStr path "~" then
    some ("submodule path cannot start with ~: " ++ path)
  else none

/-- `isHexString` (manager.go:844-851) on one character. -/
def isHexChar (c : Char) : Bool :=
  ('0' ≤ c && c ≤ '9') || ('a' ≤ c && c ≤ 'f') || ('A' ≤ c && c ≤ 'F')

/-- `isHexString` (manager.go:844-851). -/
def isHexList (l : List Char) : Bool :=
  l.all isHexChar

/-- `isHexString` on Lean strings. -/
def isHexString (s : String) : Bool :=
  isHexList s.data

/-- The derived submodule name: `path[idx+1:]` after the last `/`, or the
whole path when no `/` occurs (manager.go:744-748). -/
def lastSegment (path : String) : String :=
  String.mk ((path.data.reverse.takeWhile (fun c => c ≠ '/')).reverse)

/-- `parseSubmoduleStatusLine` (manager.go:704-759). -/
def parseSubmoduleStatusLine (line : String) : Except String Submodule :=
  if line.data.length < CommitHashLength + 1 then
    .error ("line too short: " ++ line)
  else
    let commitPath :=
      if CommitHashLength ≤ line.data.length ∧
          isHexList (line.data.take CommitHashLength) = true then
        -- no status character: the line starts with the commit hash
        match goFields line with
        | p0 :: p1 :: _ => (p0, p1)
        | _ => ("", "")
      else
        -- status character prefix: drop it and re-scan the remainder
        match goFields (String.mk (line.data.drop 1)) with
        | p0 :: p1 :: _ => (p0, p1)
        | _ => ("", "")
    let commit := commitPath.1
    let path := commitPath.2
    if commit = "" ∨ path = "" then
      .error ("could not parse commit and path from: " ++ line)
    else if commit.data.length ≠ CommitHashLength ∨ isHexString commit = false then
      .error ("invalid commit hash format: " ++ commit)
    else
      .ok { Name := lastSegment path, Path := path, Commit := commit, URL := "" }

/-! ## The external-git environment

`GitEnv` models the process-execution facility of §6 of the specification:
each field is the outcome of one of the git subcommands the manager invokes
(`.ok` with the command's stdout, or `.error` with the failure text).  The
per-submodule queries are functions of the arguments the manager passes.
The embedding of each manager function below threads this environment where
the Go code spawns the corresponding subprocess. -/
structure GitEnv where
  /-- `git rev-parse --git-dir` succeeds. -/
  revParseGitDirOk : Bool
  /-- `git status --porcelain` stdout. -/
  statusPorcelain : Except String String
  /-- `git ls-files --others --exclude-standard` stdout. -/
  lsFilesOthers : Except String String
  /-- `git branch --show-current` stdout. -/
  branchShowCurrent : Except String String
  /-- `git remote get-url origin` succeeds. -/
  remoteGetUrlOk : Bool
  /-- `git fetch --dry-run`; the error carries the captured stderr. -/
  fetchDryRun : Except String Unit
  /-- `git rev-list --count --left-right origin/<branch>...HEAD` stdout. -/
  revListLeftRight : Except String String
  /-- `git ls-files .gitmodules` stdout. -/
  lsFilesGitmodules : Except String String
  /-- `git submodule status` stdout. -/
  submoduleStatus : Except String String
  /-- `git -C <path> rev-parse --git-dir` succeeds. -/
  subGitDirOk : String → Bool
  /-- `git -C <path> rev-parse HEAD` stdout. -/
  subHead : String → Except String String
  /-- `git -C <path> tag --points-at <commit>` stdout. -/
  subTagsPointingAt : String → String → Except String String
  /-- `git -C <path> status --porcelain` stdout. -/
  subPorcelain : String → Except String String
  /-- `git remote -v` succeeds. -/
  remoteVOk : Bool

/-- `IsGitRepository` (manager.go:80-89): `some msg` is the error case. -/
def IsGitRepository (env : GitEnv) : Option String :=
  if env.revParseGitDirOk then none else some "not a git repository"

/-- `HasUncommittedChanges` (manager.go:208-221): true when the trimmed
porcelain status output is non-empty. -/
def HasUncommittedChanges (env : GitEnv) : Except String Bool :=
  match env.statusPorcelain with
  | .error e => .error ("unable to check repository status: " ++ e)
  | .ok out => .ok (!(trimChars out.data).isEmpty)

/-- `getUntrackedFiles` (manager.go:565-583). -/
def getUntrackedFiles (env : GitEnv) : Except String (List String) :=
  match env.lsFilesOthers with
  | .error e => .error ("failed to get untracked files: " ++ e)
  | .ok out =>
    let t := trimChars out.data
    if t.isEmpty then .ok []
    else .ok ((splitOnChar '\n' t).map String.mk)

/-- `GetCurrentBranch` (manager.go:193-206). -/
def GetCurrentBranch (env : GitEnv) : Except String String :=
  match env.branchShowCurrent with
  | .error e => .error ("unable to determine current git branch: " ++ e)
  | .ok out => .ok (goTrim out)

/-- `checkRemoteStatus` (manager.go:586-645): `some msg` is the error case. -/
def checkRemoteStatus (env : GitEnv) (branch : String) : Option String :=
  if branch = "" then some "no branch specified"
  else if !env.remoteGetUrlOk then some "no remote origin configured"
  else
    match env.fetchDryRun with
    | .error stderrOut =>
      let msg := trimChars stderrOut.data
      if !msg.isEmpty then some ("remote connectivity issue: " ++ String.mk msg)
      else some "unable to fetch from remote (network or auth issue)"
    | .ok _ =>
      match env.revListLeftRight with
      | .error _ => some "cannot compare with remote branch"
      | .ok out =>
        match goFields (goTrim out) with
        | [behind, ahead] =>
          if behind ≠ "0" ∧ ahead ≠ "0" then
            some ("branch is " ++ behind ++ " commits behind and " ++ ahead ++
              " commits ahead of origin")
          else if behind ≠ "0" then
            some ("branch is " ++ behind ++ " commits behind origin")
          else if ahead ≠ "0" then
            some ("branch is " ++ ahead ++ " commits ahead of origin")
          else none
        | _ => none

/-- The per-line filtering loop of `getSubmodules` (manager.go:678-699):
malformed lines and insecure paths are skipped without failing. -/
def collectSubmodules : List String → List Submodule
  | [] => []
  | line :: rest =>
    if line = "" then collectSubmodules rest
    else
      match parseSubmoduleStatusLine line with
      | .error _ => collectSubmodules rest
      | .ok sm =>
        match validateSubmodulePath sm.Path with
        | some _ => collectSubmodules rest
        | none => sm :: collectSubmodules rest

/-- `getSubmodules` (manager.go:647-702). -/
def getSubmodules (env : GitEnv) : Except String (List Submodule) :=
  match env.lsFilesGitmodules with
  | .error _ => .ok []
  | .ok out =>
    if (trimChars out.data).isEmpty then .ok []
    else
      match env.submoduleStatus with
      | .error e => .error ("failed to get submodule status: " ++ e)
      | .ok sout =>
        let t := trimChars sout.data
        if t.isEmpty then .ok []
        else .ok (collectSubmodules ((splitOnChar '\n' t).map String.mk))

/-- `isSubmodulePointingToTag` (manager.go:761-813). -/
def isSubmodulePointingToTag (env : GitEnv) (path : String) :
    Except String (Bool × String) :=
  if !env.subGitDirOk path then
    .error ("submodule " ++ path ++ " is not initialized")
  else
    match env.subHead path with
    | .error e =>
      .error ("failed to get submodule HEAD commit for " ++ path ++ ": " ++ e)
    | .ok hout =>
      let currentCommit := goTrim hout
      match env.subTagsPointingAt path currentCommit with
      | .error _ => .ok (false, "")
      | .ok tout =>
        let t := trimChars tout.data
        if t.isEmpty then .ok (false, "")
        else .ok (true, (((splitOnChar '\n' t).map String.mk).headD ""))

/-- `submoduleHasChanges` (manager.go:815-829). -/
def submoduleHasChanges (env : GitEnv) (path : String) : Except String Bool :=
  match env.subPorcelain path with
  | .error e => .error ("failed to check submodule status: " ++ e)
  | .ok out => .ok (!(trimChars out.data).isEmpty)

/-- `checkGitConnectivity` (manager.go:831-841). -/
def checkGitConnectivity (env : GitEnv) : Option String :=
  if env.remoteVOk then none else some "no git remotes configured"

/-- The freshly initialised per-step result every step function starts from. -/
def initResult (step : ValidationStep) : ValidationResult :=
  { Step := step, Success := true, Warnings := [], Errors := [] }

/-- `validateRepositoryStatus` — step 1 (manager.go:385-402). -/
def validateRepositoryStatus (env : GitEnv) (step : ValidationStep) :
    ValidationResult :=
  match IsGitRepository env with
  | some _ =>
    { initResult step with
      Success := false
      Errors := ["Current directory is not a git repository. Run 'git init' or navigate to a git repository."] }
  | none => initResult step

/-- `validateWorkingDirectory` — step 2 (manager.go:404-435). -/
def validateWorkingDirectory (env : GitEnv) (step : ValidationStep) :
    ValidationResult :=
  match HasUncommittedChanges env with
  | .error e =>
    { initResult step with
      Success := false
      Errors := ["Failed to check working directory status: " ++ e] }
  | .ok hasChanges =>
    let r :=
      if hasChanges then
        { initResult step with
          Success := false
          Errors := ["Working directory has uncommitted changes. Commit or stash changes before proceeding."] }
      else initResult step
    match getUntrackedFiles env with
    | .error e =>
      { r with Warnings := r.Warnings ++ ["Could not check for untracked files: " ++ e] }
    | .ok untracked =>
      if 0 < untracked.length then
        { r with Warnings := r.Warnings ++
            ["Found " ++ toString untracked.length ++ " untracked files"] }
      else r

/-- `validateBranchStatus` — step 3 (manager.go:437-464). -/
def validateBranchStatus (env : GitEnv) (step : ValidationStep) :
    ValidationResult :=
  match GetCurrentBranch env with
  | .error e =>
    { initResult step with
      Success := false
      Errors := ["Failed to get current branch: " ++ e] }
  | .ok branch =>
    let r :=
      if branch = "" then
        { initResult step with Warnings := ["In detached HEAD state"] }
      else initResult step
    match checkRemoteStatus env branch with
    | some e => { r with Warnings := r.Warnings ++ ["Branch status: " ++ e] }
    | none => r

/-- `scanSubmodules` — step 4 (manager.go:466-486). -/
def scanSubmodules (env : GitEnv) (step : ValidationStep) :
    List Submodule × ValidationResult :=
  match getSubmodules env with
  | .error e =>
    ([], { initResult step with
           Success := false
           Errors := ["Failed to scan submodules: " ++ e] })
  | .ok sms => (sms, initResult step)

/-- The per-submodule body of `validateSubmodules`' loop
(manager.go:498-529); the unused `tagsFound` counter is omitted. -/
def validateSubmoduleOne (env : GitEnv) (acc : ValidationResult)
    (sm : Submodule) : ValidationResult :=
  match validateSubmodulePath sm.Path with
  | some e =>
    { acc with
      Errors := acc.Errors ++ ["Insecure submodule path " ++ sm.Name ++ ": " ++ e]
      Success := false }
  | none =>
    match isSubmodulePointingToTag env sm.Path with
    | .error e =>
      { acc with
        Errors := acc.Errors ++ ["Failed to check submodule " ++ sm.Name ++ ": " ++ e]
        Success := false }
    | .ok (isTag, _) =>
      let acc :=
        if !isTag then
          { acc with Warnings := acc.Warnings ++
              ["Submodule '" ++ sm.Name ++ "' is not pointing to a release tag"] }
        else acc
      match submoduleHasChanges env sm.Path with
      | .error e =>
        { acc with Warnings := acc.Warnings ++
            ["Could not check submodule " ++ sm.Name ++ " status: " ++ e] }
      | .ok true =>
        { acc with
          Errors := acc.Errors ++ ["Submodule '" ++ sm.Name ++ "' has uncommitted changes"]
          Success := false }
      | .ok false => acc

/-- `validateSubmodules` — step 5 (manager.go:488-535). -/
def validateSubmodules (env : GitEnv) (step : ValidationStep)
    (submodules : List Submodule) : ValidationResult :=
  submodules.foldl (validateSubmoduleOne env) (initResult step)

/-- `performFinalValidation` — step 6 (manager.go:537-552). -/
def performFinalValidation (env : GitEnv) (step : ValidationStep) :
    ValidationResult :=
  match checkGitConnectivity env with
  | some e =>
    { initResult step with Warnings := ["Git connectivity check: " ++ e] }
  | none => initResult step

/-- Step descriptor 1 of `ValidateRepositoryStatus` (manager.go:272-279). -/
def stepRepository : ValidationStep :=
  { Name := "repository", Description := "Checking repository status...", Index := 1, Total := 6 }

/-- Step descriptor 2. -/
def stepWorkingDir : ValidationStep :=
  { Name := "working_dir", Description := "Validating working directory...", Index := 2, Total := 6 }

/-- Step descriptor 3. -/
def stepBranch : ValidationStep :=
  { Name := "branch", Description := "Checking branch status...", Index := 3, Total := 6 }

/-- Step descriptor 4. -/
def stepSubmodulesScan : ValidationStep :=
  { Name := "submodules_scan", Description := "Scanning for submodules...", Index := 4, Total := 6 }

/-- Step descriptor 5. -/
def stepSubmodulesStatus : ValidationStep :=
  { Name := "submodules_status", Description := "Validating submodule states...", Index := 5, Total := 6 }

/-- Step descriptor 6. -/
def stepFinal : ValidationStep :=
  { Name := "final", Description := "Final validation checks...", Index := 6, Total := 6 }

/-- The fixed step descriptors of `ValidateRepositoryStatus`
(manager.go:272-279), in pipeline order. -/
def validationSteps : List ValidationStep :=
  [stepRepository, stepWorkingDir, stepBranch, stepSubmodulesScan,
   stepSubmodulesStatus, stepFinal]

/-- `ValidateRepositoryStatus` (manager.go:270-383).  The progress callback
only reports each result to the caller and cannot influence the summary, so
it is omitted.  `hasErrors`/`hasWarnings` are the source's sequential
accumulations written as one disjunction each; in the skipped-submodule
branch the source does not test the trivial result, but that result has
`Success = true` and no warnings, so including it is exact. -/
def ValidateRepositoryStatus (env : GitEnv) : ValidationSummary :=
  let r1 := validateRepositoryStatus env stepRepository
  let r2 := validateWorkingDirectory env stepWorkingDir
  let r3 := validateBranchStatus env stepBranch
  let scan := scanSubmodules env stepSubmodulesScan
  let submodules := scan.1
  let r4 := scan.2
  let r5 :=
    if 0 < submodules.length then
      validateSubmodules env stepSubmodulesStatus submodules
    else initResult stepSubmodulesStatus
  let r6 := performFinalValidation env stepFinal
  let hasErrors :=
    !r1.Success || !r2.Success || !r3.Success || !r4.Success ||
      !r5.Success || !r6.Success
  let hasWarnings :=
    !r1.Warnings.isEmpty || !r2.Warnings.isEmpty || !r3.Warnings.isEmpty ||
      !r4.Warnings.isEmpty || !r5.Warnings.isEmpty || !r6.Warnings.isEmpty
  { Results := [r1, r2, r3, r4, r5, r6]
    HasErrors := hasErrors
    HasWarnings := hasWarnings
    CanProceed := !hasErrors }

end Git

namespace Ver

/-! ## Version manager data model (`src/internal/version/manager.go`) -/

/-- A parsed semantic version restricted to the numeric triple, which is the
shape every claim quantifies over (`github.com/Masterminds/semver` · also
carries prerelease/metadata components, which none of the modelled inputs
produce; `Equal` on triples is structural equality). -/
structure SemVer where
  major : Nat
  minor : Nat
  patch : Nat
  deriving Repr, DecidableEq

/-- `semver.Version.String()` for a numeric triple. -/
def semverString (v : SemVer) : String :=
  toString v.major ++ "." ++ toString v.minor ++ "." ++ toString v.patch

/-- `ProjectType` (manager.go:17-25). -/
inductive ProjectType where
  | rust
  | python
  | cpp
  | platformio
  | go
  deriving Repr, DecidableEq

/-- `ProjectFile` (manager.go:27-31); Go field `Type` is rendered `Ftype`. -/
structure ProjectFile where
  Path : String
  Ftype : ProjectType
  Description : String
  deriving Repr, DecidableEq

/-- `config.VersionFile`: one entry of a `.bump` override list. -/
structure VersionFile where
  Path : String
  deriving Repr, DecidableEq

/-- `config.BumpConfig`: the override list loaded from `.bump`. -/
structure BumpConfig where
  Files : List VersionFile
  deriving Repr, DecidableEq

/-- `version.Manager`'s state (manager.go:33-37). -/
structure VerManager where
  CurrentVersion : Option SemVer
  ProjectFiles : List ProjectFile
  BumpConfig : Option BumpConfig
  deriving Repr, DecidableEq

/-- `NewManager` (manager.go:39-44): default version `0.1.0`, no files, no
config. -/
def NewManager : VerManager :=
  { CurrentVersion := some ⟨0, 1, 0⟩, ProjectFiles := [], BumpConfig := none }

/-- The filesystem visible to the manager: an association list from paths to
file contents.  `os.Stat` existence and `os.ReadFile` are lookups;
`os.WriteFile` replaces (or creates) the entry. -/
def FS : Type := List (String × String)

/-- `os.ReadFile`. -/
def fsRead (fs : FS) (path : String) : Option String :=
  match List.lookup path fs with
  | some c => some c
  | none => none

/-- `os.WriteFile` (create-or-truncate with the new content). -/
def fsWrite (fs : FS) (path content : String) : FS :=
  match fs with
  | [] => [(path, content)]
  | (p, c) :: rest =>
    if p = path then (p, content) :: rest else (p, c) :: fsWrite rest path content

/-- `filepath.Join(root, p)` for the clean relative paths the claims use. -/
def joinPath (root p : String) : String :=
  if root = "" then p else root ++ "/" ++ p

/-! ### The regexp engine, specialised to the two `library.properties`
patterns

`updateLibraryPropertiesVersion` rewrites every match of
`(version\s*=\s*)([^\r\n]+)` to `${1}<newVersion>`, and
`extractLibraryPropertiesVersion` captures the first match of
`version\s*=\s*([\d\.]+)`.  The functions below execute those two patterns
directly with Go/RE2 semantics: leftmost matches, greedy `\s*` with the
single backtracking step the character classes allow. -/

/-- Go regexp `\s`: exactly `[\t\n\f\r ]`. -/
def reSpace (c : Char) : Bool :=
  c == '\t' || c == '\n' || c == '\x0c' || c == '\r' || c == ' '

/-- Membership in `[^\r\n]`. -/
def notCRLF (c : Char) : Bool :=
  c ≠ '\r' && c ≠ '\n'

/-- Membership in `[\d\.]`. -/
def isDigitOrDot (c : Char) : Bool :=
  c.isDigit || c == '.'

/-- The literal `version`. -/
def versionLit : List Char :=
  ['v', 'e', 'r', 's', 'i', 'o', 'n']

/-- Match the head `version\s*=` of the pattern at the start of `l`.  The
first `\s*` is greedy and cannot backtrack (a space never equals `=`), so
the maximal space run must be followed by `=`.  Returns the consumed
characters and the remainder after the `=`. -/
def matchKeyHead (l : List Char) : Option (List Char × List Char) :=
  if hasPre versionLit l then
    match (l.drop 7).dropWhile reSpace with
    | '=' :: rest1 =>
      some (versionLit ++ (l.drop 7).takeWhile reSpace ++ ['='], rest1)
    | _ => none
  else none

/-- Complete `\s*([^\r\n]+)` after the `=`: greedily consume the maximal
space run; if at least one character follows it is necessarily outside
`[\r\n]` (CR and LF are space characters) and starts the greedy group 2.
Otherwise backtrack inside the space run: the rightmost non-CR/LF space
character becomes the entire group 2, and the CR/LF characters after it
remain unconsumed.  Returns `(spaces kept in group 1, group 2, remainder)`. -/
def updTail (rest1 : List Char) : Option (List Char × List Char × List Char) :=
  match rest1.dropWhile reSpace with
  | x :: r' =>
    some (rest1.takeWhile reSpace, x :: r'.takeWhile notCRLF, r'.dropWhile notCRLF)
  | [] =>
    match (rest1.takeWhile reSpace).reverse.dropWhile (fun c => !notCRLF c) with
    | [] => none
    | c :: backRev =>
      some (backRev.reverse, [c],
        ((rest1.takeWhile reSpace).reverse.takeWhile (fun c => !notCRLF c)).reverse)

/-- One attempted match of `(version\s*=\s*)([^\r\n]+)` at the head of `l`:
returns group 1 and the remainder after the whole match (group 2 is
discarded by the replacement). -/
def tryUpdMatchAt (l : List Char) : Option (List Char × List Char) :=
  match matchKeyHead l with
  | none => none
  | some (g1c, rest1) =>
    match updTail rest1 with
    | none => none
    | some (sp2, _g2, rest) => some (g1c ++ sp2, rest)

/-- `regexp.ReplaceAllString` for `(version\s*=\s*)([^\r\n]+)` with the
replacement template `${1}` followed by `v`: repeatedly take the leftmost
match and continue after it.  Terminates because a successful match consumes
at least the literal `version` (shown inline below). -/
def replaceAllUpd (v : List Char) (l : List Char) : List Char :=
  match l with
  | [] => []
  | c :: cs =>
    match h : tryUpdMatchAt (c :: cs) with
    | some (g1, rest) => g1 ++ v ++ replaceAllUpd v rest
    | none => c :: replaceAllUpd v cs
termination_by l.length
decreasing_by
  · have key : ∀ L g rest : List Char, tryUpdMatchAt L = some (g, rest) →
        rest.length < L.length := by
      intro L g rest hL
      unfold tryUpdMatchAt at hL
      split at hL
      · exact absurd hL (by simp)
      · rename_i g1c rest1 hk
        have hb1 : rest1.length + 8 ≤ L.length := by
          unfold matchKeyHead at hk
          by_cases hp : hasPre versionLit L = true
          · rw [if_pos hp] at hk
            split at hk
            · rename_i r1 heq
              have hsub : ((L.drop 7).dropWhile reSpace).length ≤
                  (L.drop 7).length := (List.dropWhile_sublist _).length_le
              rw [heq] at hsub
              simp only [Option.some.injEq, Prod.mk.injEq] at hk
              rw [← hk.2]
              simp only [List.length_cons, List.length_drop] at hsub ⊢
              have hlen7 : 7 ≤ L.length := by
                have hall : ∀ (sub t : List Char), hasPre sub t = true →
                    sub.length ≤ t.length := by
                  intro sub
                  induction sub with
                  | nil => intro t _; exact Nat.zero_le _
                  | cons a s ih =>
                    intro t ht
                    cases t with
                    | nil => simp [hasPre] at ht
                    | cons b u =>
                      simp only [hasPre, Bool.and_eq_true] at ht
                      simpa [List.length_cons] using Nat.succ_le_succ (ih u ht.2)
                exact hall versionLit L hp
              omega
            · exact absurd hk (by simp)
          · rw [if_neg hp] at hk; exact absurd hk (by simp)
        split at hL
        · exact absurd hL (by simp)
        · rename_i sp2 g2 rest' ht
          simp only [Option.some.injEq, Prod.mk.injEq] at hL
          have hb2 : rest'.length ≤ rest1.length := by
            unfold updTail at ht
            split at ht
            · rename_i x r' heq
              simp only [Option.some.injEq, Prod.mk.injEq] at ht
              have h1 : (r'.dropWhile notCRLF).length ≤ r'.length :=
                (List.dropWhile_sublist _).length_le
              have h2 : (x :: r').length ≤ rest1.length := by
                have h3 : (rest1.dropWhile reSpace).length ≤ rest1.length :=
                  (List.dropWhile_sublist _).length_le
                rw [heq] at h3; exact h3
              rw [← ht.2.2]
              simp only [List.length_cons] at h2
              omega
            · split at ht
              · exact absurd ht (by simp)
              · rename_i d backRev _heq
                simp only [Option.some.injEq, Prod.mk.injEq] at ht
                rw [← ht.2.2]
                have h1 : ((rest1.takeWhile reSpace).reverse.takeWhile
                    (fun c => !notCRLF c)).length ≤
                    (rest1.takeWhile reSpace).reverse.length :=
                  (List.takeWhile_sublist _).length_le
                have h2 : (rest1.takeWhile reSpace).length ≤ rest1.length :=
                  (List.takeWhile_sublist _).length_le
                simp only [List.length_reverse] at h1 ⊢
                omega
          rw [← hL.2]
          omega
    simpa using key _ _ _ h
  · simp only [List.length_cons]
    omega

/-- `updateLibraryPropertiesVersion` (manager.go:492-495). -/
def updateLibraryPropertiesVersion (content newVersion : String) : String :=
  String.mk (replaceAllUpd newVersion.data content.data)

/-- Complete `\s*([\d\.]+)` of the extraction pattern after the `=`: no
backtracking is possible because a space character is never a digit or a
dot, so the capture must start right after the maximal space run. -/
def extTail (rest1 : List Char) : Option (List Char) :=
  match (rest1.dropWhile reSpace).takeWhile isDigitOrDot with
  | [] => none
  | cap => some cap

/-- One attempted match of `version\s*=\s*([\d\.]+)` at the head of `l`,
returning the capture group. -/
def tryExtMatchAt (l : List Char) : Option (List Char) :=
  match matchKeyHead l with
  | none => none
  | some (_, rest1) => extTail rest1

/-- `regexp.FindStringSubmatch` for `version\s*=\s*([\d\.]+)`: the capture
of the leftmost match. -/
def findExtCapture : List Char → Option (List Char)
  | [] => none
  | c :: cs =>
    match tryExtMatchAt (c :: cs) with
    | some cap => some cap
    | none => findExtCapture cs

/-- The digit run value, as computed by integer parsing of a digit string. -/
def digitsToNat (l : List Char) : Nat :=
  l.foldl (fun n c => n * 10 + (c.toNat - 48)) 0

/-- Whether every character is a decimal digit. -/
def allDigits (l : List Char) : Bool :=
  l.all Char.isDigit

/-- `semver.NewVersion` restricted to the strings the `[\d\.]+` captures can
produce (digits and dots only; that is every input the modelled extractors
feed it): `d`, `d.d` or `d.d.d` with non-empty digit runs parse, with
omitted components defaulting to zero; anything else is rejected. -/
def parseSemverNumeric (s : String) : Except String SemVer :=
  match splitOnChar '.' s.data with
  | [a] =>
    if allDigits a ∧ a ≠ [] then .ok ⟨digitsToNat a, 0, 0⟩
    else .error "Invalid Semantic Version"
  | [a, b] =>
    if allDigits a ∧ a ≠ [] ∧ allDigits b ∧ b ≠ [] then
      .ok ⟨digitsToNat a, digitsToNat b, 0⟩
    else .error "Invalid Semantic Version"
  | [a, b, c] =>
    if allDigits a ∧ a ≠ [] ∧ allDigits b ∧ b ≠ [] ∧ allDigits c ∧ c ≠ [] then
      .ok ⟨digitsToNat a, digitsToNat b, digitsToNat c⟩
    else .error "Invalid Semantic Version"
  | _ => .error "Invalid Semantic Version"

/-- `extractLibraryPropertiesVersion` (manager.go:366-374). -/
def extractLibraryPropertiesVersion (content : String) : Except String SemVer :=
  match findExtCapture content.data with
  | none => .error "no version found in library.properties"
  | some cap => parseSemverNumeric (String.mk cap)

/-! ### The library-backed format primitives

The remaining extractors/updaters call external libraries (the TOML and JSON
parsers, the regexp engine on the Cargo/pyproject/CMake/ini patterns) or the
git subprocess (`extractGoVersion`); `FormatOps` abstracts those primitives
while the manager's own dispatch and control flow is embedded verbatim.  The
four regexp-based updaters are total in Go (`ReplaceAllString` cannot fail),
hence plain functions; the JSON re-serialisation and all extractors can
fail. -/
structure FormatOps where
  /-- `extractGoVersion`: the latest git tag, de-`v`-prefixed and parsed. -/
  extractGo : Except String SemVer
  /-- `extractCargoVersion`: TOML `package.version`. -/
  cargoExtract : String → Except String SemVer
  /-- `extractPyprojectVersion`: TOML `tool.poetry.version`. -/
  pyprojectExtract : String → Except String SemVer
  /-- `extractCMakeVersion`: the two CMake version regexps. -/
  cmakeExtract : String → Except String SemVer
  /-- `extractPlatformIOIniVersion`. -/
  iniExtract : String → Except String SemVer
  /-- `extractLibraryJsonVersion`: JSON `version` field. -/
  jsonExtract : String → Except String SemVer
  /-- `updateCargoVersion` (anchored regexp substitution, total). -/
  cargoUpdate : String → String → String
  /-- `updatePyprojectVersion` (anchored regexp substitution, total). -/
  pyprojectUpdate : String → String → String
  /-- `updateCMakeVersion`'s two substitutions (total; the manager's own
  dotted-triple guard is embedded below). -/
  cmakeUpdate : String → String → String
  /-- `updatePlatformIOIniVersion` (anchored regexp substitution, total). -/
  iniUpdate : String → String → String
  /-- `updateLibraryJsonVersion`: full JSON re-serialisation, can fail. -/
  jsonUpdate : String → String → Except String String
  /-- `config.LoadBumpConfig`'s parse-and-validate of an existing `.bump`
  file's content. -/
  parseBump : String → Except String BumpConfig

/-- `extractVersionFromFile` (manager.go:233-261): read the file, dispatch on
the project type (PlatformIO additionally on the path suffix); an unmatched
suffix falls through to the unsupported-type error. -/
def extractVersionFromFile (ops : FormatOps) (fs : FS) (filePath : String)
    (pt : ProjectType) : Except String SemVer :=
  match fsRead fs filePath with
  | none => .error ("open " ++ filePath ++ ": no such file or directory")
  | some content =>
    match pt with
    | .go => ops.extractGo
    | .rust => ops.cargoExtract content
    | .python => ops.pyprojectExtract content
    | .cpp => ops.cmakeExtract content
    | .platformio =>
      if goHasSuffixStr filePath ".ini" then ops.iniExtract content
      else if goHasSuffixStr filePath ".json" then ops.jsonExtract content
      else if goHasSuffixStr filePath ".properties" then
        extractLibraryPropertiesVersion content
      else .error "unsupported project type: platformio"

/-- `updateVersionInFile` (manager.go:400-434): read, transform per format,
write back.  The Go branch returns without touching the file
(`updateGoVersion` is a no-op); the CMake branch first requires the new
version to split into exactly three dot-separated parts; a PlatformIO path
matching none of the three suffixes leaves `updatedContent` as Go's
zero-value `""`, which is then written. -/
def updateVersionInFile (ops : FormatOps) (fs : FS) (pf : ProjectFile)
    (newVersion : String) : Except String FS :=
  match fsRead fs pf.Path with
  | none => .error ("open " ++ pf.Path ++ ": no such file or directory")
  | some content =>
    match pf.Ftype with
    | .go => .ok fs
    | .rust => .ok (fsWrite fs pf.Path (ops.cargoUpdate content newVersion))
    | .python => .ok (fsWrite fs pf.Path (ops.pyprojectUpdate content newVersion))
    | .cpp =>
      if (splitOnChar '.' newVersion.data).length ≠ 3 then
        .error ("invalid version format: " ++ newVersion)
      else .ok (fsWrite fs pf.Path (ops.cmakeUpdate content newVersion))
    | .platformio =>
      if goHasSuffixStr pf.Path ".ini" then
        .ok (fsWrite fs pf.Path (ops.iniUpdate content newVersion))
      else if goHasSuffixStr pf.Path ".json" then
        match ops.jsonUpdate content newVersion with
        | .error e => .error e
        | .ok updated => .ok (fsWrite fs pf.Path updated)
      else if goHasSuffixStr pf.Path ".properties" then
        .ok (fsWrite fs pf.Path (updateLibraryPropertiesVersion content newVersion))
      else .ok (fsWrite fs pf.Path "")

/-- `UpdateAllVersions` (manager.go:391-398): iterate the registered files in
order; the first failure stops the loop and is reported wrapped with the
offending path.  The final filesystem is returned alongside the optional
error so that the state after a partial failure is observable. -/
def UpdateAllVersions (ops : FormatOps) (fs : FS) (files : List ProjectFile)
    (newVersion : String) : FS × Option String :=
  match files with
  | [] => (fs, none)
  | pf :: rest =>
    match updateVersionInFile ops fs pf newVersion with
    | .error e => (fs, some ("failed to update " ++ pf.Path ++ ": " ++ e))
    | .ok fs' => UpdateAllVersions ops fs' rest newVersion

/-- `detectProjectTypeFromPath` (manager.go:141-159); `filepath.Base` is the
final path segment for the clean relative paths in scope. -/
def detectProjectTypeFromPath (filePath : String) : Option ProjectType :=
  match Git.lastSegment filePath with
  | "go.mod" => some .go
  | "Cargo.toml" => some .rust
  | "pyproject.toml" => some .python
  | "CMakeLists.txt" => some .cpp
  | "platformio.ini" => some .platformio
  | "library.json" => some .platformio
  | "library.properties" => some .platformio
  | _ => none

/-- `getDefaultDescription` (manager.go:161-177). -/
def getDefaultDescription (pt : ProjectType) : String :=
  match pt with
  | .go => "Go module file"
  | .rust => "Rust package manifest"
  | .python => "Python project configuration"
  | .cpp => "CMake build configuration"
  | .platformio => "PlatformIO project configuration"

/-- The mismatch loop of `checkVersionSync` (manager.go:185-191): scan
`versions[1:]` and report the first element differing from `versions[0]`,
identified by its 1-based position. -/
def syncAux (first : SemVer) (i : Nat) : List SemVer → Option String
  | [] => none
  | v :: vs =>
    if v ≠ first then
      some ("version mismatch: file " ++ toString (i + 1) ++ " has version " ++
        semverString v ++ ", but file 0 has version " ++ semverString first)
    else syncAux first (i + 1) vs

/-- `checkVersionSync` (manager.go:179-194): `some msg` is the error case. -/
def checkVersionSync (versions : List SemVer) : Option String :=
  match versions with
  | [] => none
  | first :: rest => syncAux first 0 rest

/-- The loop body state of `detectVersionFilesFromConfig` (manager.go:62-95):
process the configured files in order, accumulating the parsed versions and
the manager state; any per-file failure aborts immediately. -/
def processConfigFiles (ops : FormatOps) (fs : FS) (root : String) :
    List VersionFile → VerManager × List SemVer →
      Except String (VerManager × List SemVer)
  | [], acc => .ok acc
  | cf :: rest, (st, versions) =>
    match detectProjectTypeFromPath cf.Path with
    | none => .error ("unable to determine project type for file: " ++ cf.Path)
    | some pt =>
      let fullPath := joinPath root cf.Path
      let pf : ProjectFile :=
        { Path := fullPath, Ftype := pt, Description := getDefaultDescription pt }
      match extractVersionFromFile ops fs fullPath pt with
      | .error e =>
        .error ("failed to extract version from " ++ cf.Path ++ ": " ++ e)
      | .ok version =>
        let st :=
          if (match st.CurrentVersion with
              | none => true
              | some cv => semverString cv == "0.1.0") then
            { st with CurrentVersion := some version }
          else st
        processConfigFiles ops fs root rest
          ({ st with ProjectFiles := st.ProjectFiles ++ [pf] },
            versions ++ [version])

/-- `detectVersionFilesFromConfig` (manager.go:62-103): the override list is
authoritative; after processing every file the version-sync invariant is
checked. -/
def detectVersionFilesFromConfig (ops : FormatOps) (fs : FS) (root : String)
    (cfg : BumpConfig) (st : VerManager) : Except String VerManager :=
  match processConfigFiles ops fs root cfg.Files
      ({ st with BumpConfig := some cfg }, []) with
  | .error e => .error e
  | .ok (st', versions) =>
    match checkVersionSync versions with
    | some e => .error e
    | none => .ok st'

/-- One entry of the fixed candidate table of
`detectVersionFilesAutomatically` (manager.go:106-118); Go field `projectType`
is rendered `Ftype`. -/
structure AutoEntry where
  Path : String
  Ftype : ProjectType
  Description : String
  deriving Repr, DecidableEq

/-- The fixed, priority-ordered candidate table (manager.go:106-118). -/
def wellKnownVersionFiles : List AutoEntry :=
  [ { Path := "go.mod", Ftype := .go, Description := "Go module file" },
    { Path := "Cargo.toml", Ftype := .rust, Description := "Rust package manifest" },
    { Path := "pyproject.toml", Ftype := .python, Description := "Python project configuration" },
    { Path := "CMakeLists.txt", Ftype := .cpp, Description := "CMake build configuration" },
    { Path := "platformio.ini", Ftype := .platformio, Description := "PlatformIO project configuration" },
    { Path := "library.json", Ftype := .platformio, Description := "PlatformIO library manifest" },
    { Path := "library.properties", Ftype := .platformio, Description := "Arduino library properties" } ]

/-- The loop body of `detectVersionFilesAutomatically` (manager.go:120-136):
an existing candidate is registered as a `ProjectFile`, and a successful
extraction overwrites `CurrentVersion` (errors are discarded). -/
def detectAutoStep (ops : FormatOps) (fs : FS) (root : String)
    (st : VerManager) (entry : AutoEntry) : VerManager :=
  let fullPath := joinPath root entry.Path
  if (fsRead fs fullPath).isSome then
    let pf : ProjectFile :=
      { Path := fullPath, Ftype := entry.Ftype, Description := entry.Description }
    let st' :=
      match extractVersionFromFile ops fs fullPath entry.Ftype with
      | .ok v => { st with CurrentVersion := some v }
      | .error _ => st
    { st' with ProjectFiles := st'.ProjectFiles ++ [pf] }
  else st

/-- `detectVersionFilesAutomatically` (manager.go:105-139); always succeeds
(the Go function unconditionally returns `nil`). -/
def detectVersionFilesAutomatically (ops : FormatOps) (fs : FS) (root : String)
    (st : VerManager) : VerManager :=
  wellKnownVersionFiles.foldl (detectAutoStep ops fs root) st

/-- `config.LoadBumpConfig`: a missing `.bump` file is `(nil, nil)` — no
override and no error; an existing file is parsed and validated by the
abstracted `parseBump`. -/
def LoadBumpConfig (ops : FormatOps) (fs : FS) (root : String) :
    Except String (Option BumpConfig) :=
  match fsRead fs (joinPath root ".bump") with
  | none => .ok none
  | some content =>
    match ops.parseBump content with
    | .error e => .error e
    | .ok cfg => .ok (some cfg)

/-- `DetectVersionFiles` (manager.go:46-60). -/
def DetectVersionFiles (ops : FormatOps) (fs : FS) (root : String)
    (st : VerManager) : Except String VerManager :=
  match LoadBumpConfig ops fs root with
  | .error e => .error ("failed to load .bump config: " ++ e)
  | .ok (some cfg) => detectVersionFilesFromConfig ops fs root cfg st
  | .ok none => .ok (detectVersionFilesAutomatically ops fs root st)

/-- The candidates of the fixed table that exist on `fs`, as the
`ProjectFile`s the automatic scan registers, in scan order. -/
def autoProjectFiles (fs : FS) (root : String) (l : List AutoEntry) :
    List ProjectFile :=
  l.filterMap (fun e =>
    if (fsRead fs (joinPath root e.Path)).isSome then
      some { Path := joinPath root e.Path, Ftype := e.Ftype,
             Description := e.Description }
    else none)

/-- The successfully parsed versions among the existing candidates, in scan
order. -/
def autoParsedVersions (ops : FormatOps) (fs : FS) (root : String)
    (l : List AutoEntry) : List SemVer :=
  l.filterMap (fun e =>
    if (fsRead fs (joinPath root e.Path)).isSome then
      match extractVersionFromFile ops fs (joinPath root e.Path) e.Ftype with
      | .ok v => some v
      | .error _ => none
    else none)

end Ver

/-! ## Concrete instances used to evaluate the model -/

namespace Git

/-- A repository's query outcomes when it is clean with no remote configured:
every working-tree query succeeds with empty output, `origin` and `remote -v`
are absent. -/
def envClean : GitEnv :=
  { revParseGitDirOk := true
    statusPorcelain := .ok ""
    lsFilesOthers := .ok ""
    branchShowCurrent := .ok "main"
    remoteGetUrlOk := false
    fetchDryRun := .ok ()
    revListLeftRight := .ok "0 0"
    lsFilesGitmodules := .ok ""
    submoduleStatus := .ok ""
    subGitDirOk := fun _ => true
    subHead := fun _ => .ok ""
    subTagsPointingAt := fun _ _ => .ok ""
    subPorcelain := fun _ => .ok ""
    remoteVOk := false }

/-- `envClean` with a remote listed by `git remote -v`: the two runs differ
only in the final step's connectivity warning. -/
def envCleanRemote : GitEnv :=
  { envClean with remoteVOk := true }

/-- The query outcomes of a repository whose only deviation from clean is the
single non-ignored untracked file `untracked.txt`: `git status --porcelain`
reports it as a `?? untracked.txt` line and `git ls-files --others
--exclude-standard` lists it. -/
def envUntracked : GitEnv :=
  { envClean with
    statusPorcelain := .ok "?? untracked.txt"
    lsFilesOthers := .ok "untracked.txt" }

/-- Modelled from the spec and from git's documented porcelain semantics
(neither git itself nor the porcelain format is part of this repository):
the query outcomes of a repository whose only deviation from clean is the
non-ignored untracked files `files` (no tracked change is modified, no
ignored files are involved).  `git status --porcelain` then prints exactly
one `?? <path>` line per file — in particular its output is *not* empty —
and `git ls-files --others --exclude-standard` lists the same paths.  The
paths are required to be non-empty and whitespace-free, as ordinary file
names are, so that joining and splitting the command outputs is faithful. -/
def UntrackedOnlyRepo (env : GitEnv) (files : List String) : Prop :=
  files ≠ [] ∧
  (∀ f ∈ files, f.data ≠ [] ∧ ∀ c ∈ f.data, goIsSpace c = false) ∧
  env.revParseGitDirOk = true ∧
  env.statusPorcelain = .ok (joinLines (files.map (fun f => "?? " ++ f))) ∧
  env.lsFilesOthers = .ok (joinLines files)

end Git

namespace Ver

/-- Inert format primitives: every abstracted extractor fails and every
abstracted updater returns the new version verbatim.  Concrete scenarios
override individual fields. -/
def trivialOps : FormatOps :=
  { extractGo := .error "fatal: no names found, cannot describe anything."
    cargoExtract := fun _ => .error "no version found in Cargo.toml"
    pyprojectExtract := fun _ => .error "no version found in pyproject.toml"
    cmakeExtract := fun _ => .error "no version found in CMakeLists.txt"
    iniExtract := fun _ => .error "no version found in platformio.ini"
    jsonExtract := fun _ => .error "no version found in library.json"
    cargoUpdate := fun _ v => v
    pyprojectUpdate := fun _ v => v
    cmakeUpdate := fun _ v => v
    iniUpdate := fun _ v => v
    jsonUpdate := fun _ v => .ok v
    parseBump := fun _ => .error "no files specified in configuration" }

/-- Format primitives where `go.mod` parses to `1.0.0` (via the git tag) and
`Cargo.toml` parses to `2.0.0`. -/
def opsAuto : FormatOps :=
  { trivialOps with
    extractGo := .ok ⟨1, 0, 0⟩
    cargoExtract := fun _ => .ok ⟨2, 0, 0⟩ }

/-- A project root containing `go.mod` and `Cargo.toml` only. -/
def fsAuto : FS :=
  [("go.mod", "module example.com/demo\n"),
   ("Cargo.toml", "[package]\nname = \"demo\"\nversion = \"2.0.0\"\n")]

/-- Format primitives where `Cargo.toml` reports `1.0.0` and
`pyproject.toml` reports `1.1.0`. -/
def opsCfg : FormatOps :=
  { trivialOps with
    cargoExtract := fun _ => .ok ⟨1, 0, 0⟩
    pyprojectExtract := fun _ => .ok ⟨1, 1, 0⟩ }

/-- A project root containing the two configured files of the override
scenario. -/
def fsCfg : FS :=
  [("Cargo.toml", "[package]\nversion = \"1.0.0\"\n"),
   ("pyproject.toml", "[tool.poetry]\nversion = \"1.1.0\"\n")]

/-- The two-file override list of the mismatch scenario. -/
def cfgTwo : BumpConfig :=
  { Files := [{ Path := "Cargo.toml" }, { Path := "pyproject.toml" }] }

/-- A project root for the update scenario: `a/Cargo.toml` and
`c/Cargo.toml` exist, `b/Cargo.toml` does not. -/
def fsUpd : FS :=
  [("a/Cargo.toml", "[package]\nversion = \"1.0.0\"\n"),
   ("c/Cargo.toml", "[package]\nversion = \"1.0.0\"\n")]

/-- The registered files of the update scenario, in registration order; the
middle one is missing from `fsUpd`. -/
def updFiles : List ProjectFile :=
  [ { Path := "a/Cargo.toml", Ftype := .rust, Description := "Rust package manifest" },
    { Path := "b/Cargo.toml", Ftype := .rust, Description := "Rust package manifest" },
    { Path := "c/Cargo.toml", Ftype := .rust, Description := "Rust package manifest" } ]

/-- A project root with only an unparseable `Cargo.toml` and no `.bump`
file. -/
def fsNoBump : FS :=
  [("Cargo.toml", "this is not a manifest")]

end Ver

namespace Git

/-- Two step results that agree except possibly in their warning lists. -/
def SameExceptWarnings (r₁ r₂ : ValidationResult) : Prop :=
  r₁.Step = r₂.Step ∧ r₁.Success = r₂.Success ∧ r₁.Errors = r₂.Errors

end Git

namespace Ver

/-- The filesystem after the first registered file of the update scenario
has been rewritten to `2.0.0`. -/
def fsUpdAfterA : FS :=
  [("a/Cargo.toml", "2.0.0"),
   ("c/Cargo.toml", "[package]\nversion = \"1.0.0\"\n")]

end Ver

/-! ## List helper lemmas -/

theorem takeWhile_all_eq {α} (p : α → Bool) (A : List α)
    (hA : ∀ a ∈ A, p a = true) : A.takeWhile p = A := by
  induction A with
  | nil => rfl
  | cons a t ih =>
    have ht := ih (fun x hx => hA x (by simp [hx]))
    simp [List.takeWhile_cons, hA a (by simp), ht]

theorem dropWhile_all_eq {α} (p : α → Bool) (A : List α)
    (hA : ∀ a ∈ A, p a = true) : A.dropWhile p = [] := by
  induction A with
  | nil => rfl
  | cons a t ih =>
    have ht := ih (fun x hx => hA x (by simp [hx]))
    simp [List.dropWhile_cons, hA a (by simp), ht]

theorem takeWhile_append_all {α} (p : α → Bool) (A : List α) (b : α)
    (B : List α) (hA : ∀ a ∈ A, p a = true) (hb : p b = false) :
    (A ++ b :: B).takeWhile p = A := by
  induction A with
  | nil => simp [List.takeWhile_cons, hb]
  | cons a t ih =>
    have ht := ih (fun x hx => hA x (by simp [hx]))
    simp [List.cons_append, List.takeWhile_cons, hA a (by simp), ht]

theorem dropWhile_append_all {α} (p : α → Bool) (A : List α) (b : α)
    (B : List α) (hA : ∀ a ∈ A, p a = true) (hb : p b = false) :
    (A ++ b :: B).dropWhile p = b :: B := by
  induction A with
  | nil => simp [List.dropWhile_cons, hb]
  | cons a t ih =>
    have ht := ih (fun x hx => hA x (by simp [hx]))
    simp [List.cons_append, List.dropWhile_cons, hA a (by simp), ht]

theorem takeWhile_cons_neg {α} (p : α → Bool) (b : α) (B : List α)
    (hb : p b = false) : (b :: B).takeWhile p = [] := by
  simp [List.takeWhile_cons, hb]

theorem dropWhile_cons_neg {α} (p : α → Bool) (b : α) (B : List α)
    (hb : p b = false) : (b :: B).dropWhile p = b :: B := by
  simp [List.dropWhile_cons, hb]

/-- A list with a non-space character does not trim to empty. -/
theorem trimChars_ne_nil (l : List Char) (c : Char) (hc : c ∈ l)
    (hcs : goIsSpace c = false) : trimChars l ≠ [] := by
  intro hnil
  unfold trimChars at hnil
  rw [List.reverse_eq_nil_iff] at hnil
  have h2 : ∀ x ∈ (l.dropWhile goIsSpace).reverse, goIsSpace x = true := by
    intro x hx
    by_contra hxs
    have := List.takeWhile_append_dropWhile (p := goIsSpace)
      (l := (l.dropWhile goIsSpace).reverse)
    rw [hnil, List.append_nil] at this
    rw [← this] at hx
    exact hxs (List.mem_takeWhile_imp hx)
  have h3 : ∀ x ∈ l.dropWhile goIsSpace, goIsSpace x = true := by
    intro x hx
    exact h2 x (by simpa using hx)
  have h4 : ∀ x ∈ l, goIsSpace x = true := by
    intro x hx
    have := List.takeWhile_append_dropWhile (p := goIsSpace) (l := l)
    rw [← this] at hx
    rcases List.mem_append.mp hx with h | h
    · exact List.mem_takeWhile_imp h
    · exact h3 x h
  rw [h4 c hc] at hcs
  exact absurd hcs (by decide)

/-- Trimming does not change a list whose two ends are non-space. -/
theorem trimChars_eq_self (l : List Char)
    (hhead : ∀ c, l.head? = some c → goIsSpace c = false)
    (hlast : ∀ c, l.getLast? = some c → goIsSpace c = false) :
    trimChars l = l := by
  cases l with
  | nil => rfl
  | cons a t =>
    have ha : goIsSpace a = false := hhead a rfl
    unfold trimChars
    rw [dropWhile_cons_neg _ _ _ ha]
    rcases hrev : (a :: t).reverse with _ | ⟨b, rt⟩
    · exact absurd hrev (by simp)
    · have hb : goIsSpace b = false := by
        refine hlast b ?_
        rw [← List.head?_reverse]
        rw [hrev]
        rfl
      rw [dropWhile_cons_neg _ _ _ hb]
      rw [← hrev]
      rw [List.reverse_reverse]

/-- A list without the separator splits to itself alone. -/
theorem splitOnChar_no_sep (sep : Char) (x : List Char)
    (hx : ∀ c ∈ x, c ≠ sep) : splitOnChar sep x = [x] := by
  induction x with
  | nil => rfl
  | cons c cs ih =>
    have hc : c ≠ sep := hx c (by simp)
    have ih' := ih (fun d hd => hx d (by simp [hd]))
    simp [splitOnChar, hc, ih']

/-- Splitting past the first separator peels off the first part. -/
theorem splitOnChar_append_sep (sep : Char) (x rest : List Char)
    (hx : ∀ c ∈ x, c ≠ sep) :
    splitOnChar sep (x ++ sep :: rest) = x :: splitOnChar sep rest := by
  induction x with
  | nil => simp [splitOnChar]
  | cons c cs ih =>
    have hc : c ≠ sep := hx c (by simp)
    have ih' := ih (fun d hd => hx d (by simp [hd]))
    rcases hsr : splitOnChar sep rest with _ | ⟨h0, t0⟩
    · rw [hsr] at ih'
      simp [splitOnChar, hc, ih']
    · rw [hsr] at ih'
      simp [splitOnChar, hc, ih', hsr]

/-- Splitting on the separator inverts joining, provided no part contains
the separator. -/
theorem splitOnChar_intercalate (sep : Char) (parts : List (List Char))
    (hne : parts ≠ [])
    (hsep : ∀ part ∈ parts, ∀ c ∈ part, c ≠ sep) :
    splitOnChar sep (intercalateChar sep parts) = parts := by
  induction parts with
  | nil => exact absurd rfl hne
  | cons x rest ih =>
    cases rest with
    | nil => exact splitOnChar_no_sep sep x (hsep x (by simp))
    | cons y rest' =>
      have htail : splitOnChar sep (intercalateChar sep (y :: rest')) =
          y :: rest' := by
        refine ih (by simp) ?_
        intro part hp
        exact hsep part (by simp [hp])
      show splitOnChar sep (x ++ sep :: intercalateChar sep (y :: rest')) =
        x :: y :: rest'
      rw [splitOnChar_append_sep sep x _ (hsep x (by simp)), htail]

/-! ## Verified claims: the git validator -/

namespace Git

/-- **C3** (code bug evidence).  The behaviour of `validateSubmodulePath` as
written: it rejects the empty path, absolute paths, `..`-containing paths,
drive-letter paths and `~`-prefixed paths, and accepts simple relative
nested identifiers — but it also accepts paths with embedded NUL or LF
characters and the path `.`, which the claim (and the repository's own test
table, `TestValidateSubmodulePath`) requires it to reject. -/
theorem validateSubmodulePath_behavior :
    validateSubmodulePath "" ≠ none ∧
    validateSubmodulePath "/etc/passwd" ≠ none ∧
    validateSubmodulePath "C:\\Windows" ≠ none ∧
    validateSubmodulePath "../../../etc/passwd" ≠ none ∧
    validateSubmodulePath "libs/../../../etc/passwd" ≠ none ∧
    validateSubmodulePath "~/malicious" ≠ none ∧
    validateSubmodulePath "a/b/c" = none ∧
    validateSubmodulePath "lib\x00/malicious" = none ∧
    validateSubmodulePath "lib\n/malicious" = none ∧
    validateSubmodulePath "." = none := by
  decide

/-- The accumulated error flag is exactly "some step result is
unsuccessful". -/
theorem hasErrors_eq_any (env : GitEnv) :
    (ValidateRepositoryStatus env).HasErrors =
      (ValidateRepositoryStatus env).Results.any (fun r => !r.Success) := by
  simp only [ValidateRepositoryStatus, List.any_cons, List.any_nil,
    Bool.or_false, Bool.or_assoc]

/-- **C2**.  The summary's `CanProceed` is the negation of `HasErrors`, and
warnings cannot influence it: two runs whose six step results agree on
everything except possibly the warning lists have equal `CanProceed`. -/
theorem canProceed_eq_not_hasErrors :
    (∀ env : GitEnv, (ValidateRepositoryStatus env).CanProceed =
        !(ValidateRepositoryStatus env).HasErrors) ∧
    (∀ env₁ env₂ : GitEnv,
      List.Forall₂ SameExceptWarnings (ValidateRepositoryStatus env₁).Results
        (ValidateRepositoryStatus env₂).Results →
      (ValidateRepositoryStatus env₁).CanProceed =
        (ValidateRepositoryStatus env₂).CanProceed) := by
  have hnot : ∀ env : GitEnv, (ValidateRepositoryStatus env).CanProceed =
      !(ValidateRepositoryStatus env).HasErrors := fun _ => rfl
  refine ⟨hnot, ?_⟩
  intro env₁ env₂ h
  have key : ∀ l₁ l₂ : List ValidationResult,
      List.Forall₂ SameExceptWarnings l₁ l₂ →
      l₁.any (fun r => !r.Success) = l₂.any (fun r => !r.Success) := by
    intro l₁ l₂ hf
    induction hf with
    | nil => rfl
    | cons h1 _ ih => simp [List.any_cons, h1.2.1, ih]
  rw [hnot env₁, hnot env₂, hasErrors_eq_any env₁, hasErrors_eq_any env₂,
    key _ _ h]

theorem validateRepositoryStatus_Step (env : GitEnv) (s : ValidationStep) :
    (validateRepositoryStatus env s).Step = s := by
  unfold validateRepositoryStatus
  (repeat' split) <;> rfl

theorem validateWorkingDirectory_Step (env : GitEnv) (s : ValidationStep) :
    (validateWorkingDirectory env s).Step = s := by
  unfold validateWorkingDirectory
  (repeat' split) <;> rfl

theorem validateBranchStatus_Step (env : GitEnv) (s : ValidationStep) :
    (validateBranchStatus env s).Step = s := by
  unfold validateBranchStatus
  (repeat' split) <;> rfl

theorem scanSubmodules_Step (env : GitEnv) (s : ValidationStep) :
    (scanSubmodules env s).2.Step = s := by
  unfold scanSubmodules
  (repeat' split) <;> rfl

theorem validateSubmoduleOne_Step (env : GitEnv) (acc : ValidationResult)
    (sm : Submodule) : (validateSubmoduleOne env acc sm).Step = acc.Step := by
  unfold validateSubmoduleOne
  (repeat' split) <;> rfl

theorem validateSubmodules_Step (env : GitEnv) (s : ValidationStep)
    (sms : List Submodule) : (validateSubmodules env s sms).Step = s := by
  suffices h : ∀ acc : ValidationResult,
      (sms.foldl (validateSubmoduleOne env) acc).Step = acc.Step by
    exact h (initResult s)
  induction sms with
  | nil => intro acc; rfl
  | cons sm rest ih =>
    intro acc
    rw [List.foldl_cons, ih, validateSubmoduleOne_Step]

theorem performFinalValidation_Step (env : GitEnv) (s : ValidationStep) :
    (performFinalValidation env s).Step = s := by
  unfold performFinalValidation
  (repeat' split) <;> rfl

/-- **C7**.  Every run returns exactly one result per defined step, in step
order (six results carrying the six step descriptors); and when the scan
finds zero submodules the fifth result is still present, trivially
successful with no warnings and no errors. -/
theorem one_result_per_step (env : GitEnv) :
    ((ValidateRepositoryStatus env).Results.map (fun r => r.Step) =
      validationSteps) ∧
    (getSubmodules env = .ok [] →
      (ValidateRepositoryStatus env).Results[4]? =
        some (initResult stepSubmodulesStatus)) := by
  constructor
  · have h5 : (if 0 < (scanSubmodules env stepSubmodulesScan).1.length then
        validateSubmodules env stepSubmodulesStatus
          (scanSubmodules env stepSubmodulesScan).1
      else initResult stepSubmodulesStatus).Step = stepSubmodulesStatus := by
      split
      · exact validateSubmodules_Step env stepSubmodulesStatus _
      · rfl
    simp only [ValidateRepositoryStatus, List.map_cons, List.map_nil,
      validationSteps, validateRepositoryStatus_Step,
      validateWorkingDirectory_Step, validateBranchStatus_Step,
      scanSubmodules_Step, performFinalValidation_Step, h5]
  · intro h
    simp only [ValidateRepositoryStatus, scanSubmodules, h]
    rfl

/-- Closed instance of `canProceed_eq_not_hasErrors`: the clean environment
with and without a listed remote differ only in the final connectivity
warning, and gate identically. -/
theorem canProceed_eq_not_hasErrors_witness :
    (ValidateRepositoryStatus envClean).CanProceed =
      !(ValidateRepositoryStatus envClean).HasErrors ∧
    (ValidateRepositoryStatus envClean).CanProceed =
      (ValidateRepositoryStatus envCleanRemote).CanProceed := by
  refine ⟨canProceed_eq_not_hasErrors.1 envClean,
    canProceed_eq_not_hasErrors.2 envClean envCleanRemote ?_⟩
  exact .cons ⟨rfl, rfl, rfl⟩ (.cons ⟨rfl, rfl, rfl⟩ (.cons ⟨rfl, rfl, rfl⟩
    (.cons ⟨rfl, rfl, rfl⟩ (.cons ⟨rfl, rfl, rfl⟩
      (.cons ⟨rfl, rfl, rfl⟩ .nil)))))

/-- Closed instance of `one_result_per_step` at the clean repository
environment, which has no submodules. -/
theorem one_result_per_step_witness :
    ((ValidateRepositoryStatus envClean).Results.map (fun r => r.Step) =
      validationSteps) ∧
    (ValidateRepositoryStatus envClean).Results[4]? =
      some (initResult stepSubmodulesStatus) :=
  ⟨(one_result_per_step envClean).1,
    (one_result_per_step envClean).2 (by rfl)⟩

/-- A member of the first part is a member of the separator-join. -/
theorem head_mem_intercalate (sep : Char) (x : List Char)
    (rest : List (List Char)) (c : Char) (hc : c ∈ x) :
    c ∈ intercalateChar sep (x :: rest) := by
  cases rest with
  | nil => exact hc
  | cons y r =>
    show c ∈ x ++ sep :: intercalateChar sep (y :: r)
    exact List.mem_append_left _ hc

/-- The last element of a separator-join of non-empty parts is the last
element of one of the parts. -/
theorem getLast?_intercalate (sep : Char) :
    ∀ parts : List (List Char), parts ≠ [] → (∀ p ∈ parts, p ≠ []) →
      ∃ p ∈ parts, (intercalateChar sep parts).getLast? = p.getLast? := by
  intro parts
  induction parts with
  | nil => intro h _; exact absurd rfl h
  | cons x rest ih =>
    intro _ hne
    cases rest with
    | nil => exact ⟨x, by simp, rfl⟩
    | cons y r =>
      obtain ⟨p, hp, heq⟩ := ih (by simp) (fun q hq => hne q (by simp [hq]))
      refine ⟨p, by simp [hp], ?_⟩
      show (x ++ sep :: intercalateChar sep (y :: r)).getLast? = p.getLast?
      have hL' : intercalateChar sep (y :: r) ≠ [] := by
        cases r with
        | nil =>
          intro h0
          exact hne y (by simp) h0
        | cons z r' =>
          intro h0
          rw [show intercalateChar sep (y :: z :: r') =
            y ++ sep :: intercalateChar sep (z :: r') from rfl] at h0
          simp at h0
      rw [List.getLast?_append_of_ne_nil x (by simp)]
      rw [show (sep :: intercalateChar sep (y :: r)) =
        [sep] ++ intercalateChar sep (y :: r) from rfl]
      rw [List.getLast?_append_of_ne_nil [sep] hL']
      exact heq

/-- **C1** (amended).  On a repository whose only deviation from clean is
one or more non-ignored untracked files, the working-directory step records
the untracked-files warning *and* the uncommitted-changes blocking error —
because those files appear in the porcelain status output — so the summary
has `HasErrors = true` and `CanProceed = false`. -/
theorem untracked_only_is_blocking (env : GitEnv) (files : List String)
    (h : UntrackedOnlyRepo env files) :
    (ValidateRepositoryStatus env).Results[1]? = some
      { Step := stepWorkingDir, Success := false,
        Warnings := ["Found " ++ toString files.length ++ " untracked files"],
        Errors := ["Working directory has uncommitted changes. Commit or stash changes before proceeding."] } ∧
    (ValidateRepositoryStatus env).HasErrors = true ∧
    (ValidateRepositoryStatus env).CanProceed = false := by
  obtain ⟨hne, hfiles, hgit, hporc, hls⟩ := h
  obtain ⟨f0, rest, rfl⟩ : ∃ f0 rest, files = f0 :: rest := by
    cases files with
    | nil => exact absurd rfl hne
    | cons a b => exact ⟨a, b, rfl⟩
  have hf0 := hfiles f0 (by simp)
  obtain ⟨c0, t0, hf0eq⟩ : ∃ c0 t0, f0.data = c0 :: t0 := by
    cases hd : f0.data with
    | nil => exact absurd hd hf0.1
    | cons a b => exact ⟨a, b, rfl⟩
  -- step (a): `git status --porcelain` output does not trim to empty
  have hq : ('?' : Char) ∈ intercalateChar '\n'
      (((f0 :: rest).map (fun f => "?? " ++ f)).map String.data) := by
    refine head_mem_intercalate '\n' _ _ _ ?_
    show ('?' : Char) ∈ ("?? " ++ f0).data
    rw [show ("?? " ++ f0).data = '?' :: '?' :: ' ' :: f0.data from rfl]
    simp
  have htrim : trimChars (joinLines
      ((f0 :: rest).map (fun f => "?? " ++ f))).data ≠ [] := by
    refine trimChars_ne_nil _ '?' ?_ (by decide)
    exact hq
  have hchg : HasUncommittedChanges env = .ok true := by
    have hEmpty : (trimChars (joinLines
        ((f0 :: rest).map (fun f => "?? " ++ f))).data).isEmpty = false := by
      simpa [List.isEmpty_iff] using htrim
    simp only [HasUncommittedChanges, hporc, hEmpty]
    rfl
  -- step (b): the untracked listing parses back to exactly `files`
  have hparts : ∀ p ∈ (f0 :: rest).map String.data, p ≠ [] := by
    intro p hp
    obtain ⟨f, hf, rfl⟩ := List.mem_map.mp hp
    exact (hfiles f hf).1
  have hpartsSpace : ∀ p ∈ (f0 :: rest).map String.data,
      ∀ c ∈ p, goIsSpace c = false := by
    intro p hp c hc
    obtain ⟨f, hf, rfl⟩ := List.mem_map.mp hp
    exact (hfiles f hf).2 c hc
  have hLhead : ∀ c, (intercalateChar '\n'
      ((f0 :: rest).map String.data)).head? = some c → goIsSpace c = false := by
    intro c hc
    cases rest with
    | nil =>
      rw [show intercalateChar '\n' ([f0].map String.data) = f0.data from rfl,
        hf0eq] at hc
      simp only [List.head?_cons, Option.some.injEq] at hc
      rw [← hc]
      exact hf0.2 c0 (by rw [hf0eq]; simp)
    | cons y r =>
      rw [show intercalateChar '\n' ((f0 :: y :: r).map String.data) =
        f0.data ++ '\n' :: intercalateChar '\n' ((y :: r).map String.data)
        from rfl, hf0eq] at hc
      simp only [List.cons_append, List.head?_cons, Option.some.injEq] at hc
      rw [← hc]
      exact hf0.2 c0 (by rw [hf0eq]; simp)
  have hLlast : ∀ c, (intercalateChar '\n'
      ((f0 :: rest).map String.data)).getLast? = some c →
      goIsSpace c = false := by
    intro c hc
    obtain ⟨p, hp, heq⟩ := getLast?_intercalate '\n'
      ((f0 :: rest).map String.data) (by simp) hparts
    rw [heq] at hc
    exact hpartsSpace p hp c (List.mem_of_mem_getLast? hc)
  have htrimU : trimChars (intercalateChar '\n'
      ((f0 :: rest).map String.data)) =
      intercalateChar '\n' ((f0 :: rest).map String.data) :=
    trimChars_eq_self _ hLhead hLlast
  have hLne : intercalateChar '\n' ((f0 :: rest).map String.data) ≠ [] := by
    cases rest with
    | nil =>
      rw [show intercalateChar '\n' ([f0].map String.data) = f0.data from rfl,
        hf0eq]
      simp
    | cons y r =>
      rw [show intercalateChar '\n' ((f0 :: y :: r).map String.data) =
        f0.data ++ '\n' :: intercalateChar '\n' ((y :: r).map String.data)
        from rfl]
      simp
  have hsplit : splitOnChar '\n' (intercalateChar '\n'
      ((f0 :: rest).map String.data)) = (f0 :: rest).map String.data := by
    refine splitOnChar_intercalate '\n' _ (by simp) ?_
    intro p hp c hc hceq
    have := hpartsSpace p hp c hc
    rw [hceq] at this
    exact absurd this (by decide)
  have hUn : getUntrackedFiles env = .ok (f0 :: rest) := by
    have hdata : (joinLines (f0 :: rest)).data =
        intercalateChar '\n' ((f0 :: rest).map String.data) := rfl
    have hEmpty : (trimChars (joinLines (f0 :: rest)).data).isEmpty = false := by
      rw [hdata, htrimU]
      simpa [List.isEmpty_iff] using hLne
    simp only [getUntrackedFiles, hls, hdata, htrimU, hEmpty,
      Bool.false_eq_true, if_false, hsplit]
    have hmk : ∀ f : String, String.mk f.data = f := fun _ => rfl
    have hLne' : ¬intercalateChar '\n' (f0.data :: rest.map String.data) = [] := by
      simpa using hLne
    simp [List.map_map, Function.comp_def, hmk, hLne']
  -- the working-directory result
  have hwd : validateWorkingDirectory env stepWorkingDir =
      { Step := stepWorkingDir, Success := false,
        Warnings := ["Found " ++ toString (f0 :: rest).length ++
          " untracked files"],
        Errors := ["Working directory has uncommitted changes. Commit or stash changes before proceeding."] } := by
    simp [validateWorkingDirectory, hchg, hUn, initResult]
  have hr1 : (ValidateRepositoryStatus env).Results[1]? =
      some (validateWorkingDirectory env stepWorkingDir) := rfl
  refine ⟨?_, ?_, ?_⟩
  · rw [hr1, hwd]
  · show (!(validateRepositoryStatus env stepRepository).Success ||
      !(validateWorkingDirectory env stepWorkingDir).Success || _ || _ ||
      _ || _) = true
    rw [hwd]
    simp
  · show (!(!(validateRepositoryStatus env stepRepository).Success ||
      !(validateWorkingDirectory env stepWorkingDir).Success || _ || _ ||
      _ || _)) = false
    rw [hwd]
    simp

/-- Closed instance of `untracked_only_is_blocking` at the concrete
environment of a repository with the single untracked file
`untracked.txt`. -/
theorem untracked_only_is_blocking_witness :
    UntrackedOnlyRepo envUntracked ["untracked.txt"] ∧
    (ValidateRepositoryStatus envUntracked).HasErrors = true ∧
    (ValidateRepositoryStatus envUntracked).CanProceed = false := by
  have hrepo : UntrackedOnlyRepo envUntracked ["untracked.txt"] :=
    ⟨by simp, by decide, rfl, rfl, rfl⟩
  exact ⟨hrepo, (untracked_only_is_blocking envUntracked _ hrepo).2.1,
    (untracked_only_is_blocking envUntracked _ hrepo).2.2⟩

/-- **C1** (counterexample).  A repository whose only deviation from clean
is the single non-ignored untracked file `untracked.txt` — the claim's
premise — yields a working-directory result carrying a blocking error and a
summary with `HasErrors = true`, contradicting the claimed
`HasErrors = false` with no recorded error. -/
theorem untracked_only_counterexample :
    UntrackedOnlyRepo envUntracked ["untracked.txt"] ∧
    (ValidateRepositoryStatus envUntracked).HasErrors = true ∧
    (ValidateRepositoryStatus envUntracked).Results[1]? = some
      { Step := stepWorkingDir, Success := false,
        Warnings := ["Found 1 untracked files"],
        Errors := ["Working directory has uncommitted changes. Commit or stash changes before proceeding."] } := by
  exact ⟨⟨by simp, by decide, rfl, rfl, rfl⟩, by rfl, by rfl⟩

end Git

/-! ## Verified claims: the version registry -/

namespace Ver

/-- **C9**.  `UpdateAllVersions` processes the registered files in
registration order; on the first file whose update fails it stops with an
error naming that file, the files before it keep their rewritten contents
(the resulting filesystem is exactly the state after the successful prefix)
and no later file is touched. -/
theorem updateAll_first_failure (ops : FormatOps) (newVersion : String)
    (fs fs' : FS) (pre : List ProjectFile) (pf : ProjectFile)
    (post : List ProjectFile) (e : String)
    (hpre : UpdateAllVersions ops fs pre newVersion = (fs', none))
    (hfail : updateVersionInFile ops fs' pf newVersion = .error e) :
    UpdateAllVersions ops fs (pre ++ pf :: post) newVersion =
      (fs', some ("failed to update " ++ pf.Path ++ ": " ++ e)) := by
  induction pre generalizing fs with
  | nil =>
    simp only [UpdateAllVersions, Prod.mk.injEq] at hpre
    rw [← hpre.1] at hfail
    simp only [List.nil_append, UpdateAllVersions, hfail]
    rw [hpre.1]
  | cons q qs ih =>
    rw [show UpdateAllVersions ops fs (q :: qs) newVersion =
      (match updateVersionInFile ops fs q newVersion with
       | .error e₀ => (fs, some ("failed to update " ++ q.Path ++ ": " ++ e₀))
       | .ok fs₁ => UpdateAllVersions ops fs₁ qs newVersion) from rfl] at hpre
    rcases hq : updateVersionInFile ops fs q newVersion with e₀ | fs₁
    · rw [hq] at hpre
      exact absurd hpre (by simp)
    · rw [hq] at hpre
      show UpdateAllVersions ops fs (q :: (qs ++ pf :: post)) newVersion = _
      rw [show UpdateAllVersions ops fs (q :: (qs ++ pf :: post)) newVersion =
        (match updateVersionInFile ops fs q newVersion with
         | .error e₀ => (fs, some ("failed to update " ++ q.Path ++ ": " ++ e₀))
         | .ok fs₁ => UpdateAllVersions ops fs₁ (qs ++ pf :: post) newVersion)
        from rfl, hq]
      exact ih fs₁ hpre

/-- Closed instance of `updateAll_first_failure`: three registered Cargo
manifests with the middle one missing — the first is rewritten, the run
stops at the second naming it, and the third is untouched. -/
theorem updateAll_first_failure_witness :
    UpdateAllVersions trivialOps fsUpd updFiles "2.0.0" =
      (fsUpdAfterA, some ("failed to update b/Cargo.toml: " ++
        "open b/Cargo.toml: no such file or directory")) :=
  updateAll_first_failure trivialOps "2.0.0" fsUpd fsUpdAfterA
    [{ Path := "a/Cargo.toml", Ftype := .rust,
       Description := "Rust package manifest" }]
    { Path := "b/Cargo.toml", Ftype := .rust,
      Description := "Rust package manifest" }
    [{ Path := "c/Cargo.toml", Ftype := .rust,
       Description := "Rust package manifest" }]
    "open b/Cargo.toml: no such file or directory" (by rfl) (by rfl)

/-- A passed sync check means every later version equals the first. -/
theorem syncAux_none (first : SemVer) :
    ∀ (i : Nat) (rest : List SemVer), syncAux first i rest = none →
      ∀ v ∈ rest, v = first := by
  intro i rest
  induction rest generalizing i with
  | nil => intro _ v hv; exact absurd hv (by simp)
  | cons w ws ih =>
    intro h v hv
    unfold syncAux at h
    by_cases hw : w ≠ first
    · rw [if_pos hw] at h
      exact absurd h (by simp)
    · rw [if_neg hw] at h
      push_neg at hw
      rcases List.mem_cons.mp hv with hveq | hvmem
      · rw [hveq, hw]
      · exact ih (i + 1) h v hvmem

/-- **C8** (amended).  In override mode, two configured files reporting
unequal versions make detection fail with an error that identifies the two
files by their positions in the configured list (`file 1` and `file 0`, not
by path) and carries both version values; and detection succeeds only when
every pair of parsed versions is equal. -/
theorem detectConfig_mismatch_and_sync :
    (∀ (ops : FormatOps) (fs : FS) (root p1 p2 : String)
        (t1 t2 : ProjectType) (v1 v2 : SemVer) (st : VerManager),
      detectProjectTypeFromPath p1 = some t1 →
      detectProjectTypeFromPath p2 = some t2 →
      extractVersionFromFile ops fs (joinPath root p1) t1 = .ok v1 →
      extractVersionFromFile ops fs (joinPath root p2) t2 = .ok v2 →
      v1 ≠ v2 →
      detectVersionFilesFromConfig ops fs root
          { Files := [{ Path := p1 }, { Path := p2 }] } st =
        .error ("version mismatch: file 1 has version " ++ semverString v2 ++
          ", but file 0 has version " ++ semverString v1)) ∧
    (∀ (ops : FormatOps) (fs : FS) (root : String) (cfg : BumpConfig)
        (st st' : VerManager),
      detectVersionFilesFromConfig ops fs root cfg st = .ok st' →
      ∃ stv versions,
        processConfigFiles ops fs root cfg.Files
          ({ st with BumpConfig := some cfg }, []) = .ok (stv, versions) ∧
        ∀ v ∈ versions, ∀ w ∈ versions, v = w) := by
  constructor
  · intro ops fs root p1 p2 t1 t2 v1 v2 st h1 h2 h3 h4 hne
    have hne' : v2 ≠ v1 := Ne.symm hne
    simp only [detectVersionFilesFromConfig, processConfigFiles, h1, h2, h3,
      h4, List.nil_append, List.cons_append, List.append_nil,
      checkVersionSync, syncAux, if_pos hne']
    rfl
  · intro ops fs root cfg st st' hdetect
    unfold detectVersionFilesFromConfig at hdetect
    split at hdetect
    · exact absurd hdetect (by simp)
    · rename_i stv versions hproc
      split at hdetect
      · exact absurd hdetect (by simp)
      · rename_i hsync
        refine ⟨stv, versions, hproc, ?_⟩
        intro v hv w hw
        cases versions with
        | nil => exact absurd hv (by simp)
        | cons first rest =>
          have hall := syncAux_none first 0 rest hsync
          have hv' : v = first := by
            rcases List.mem_cons.mp hv with h | h
            · exact h
            · exact hall v h
          have hw' : w = first := by
            rcases List.mem_cons.mp hw with h | h
            · exact h
            · exact hall w h
          rw [hv', hw']

/-- Closed instance of `detectConfig_mismatch_and_sync` at the concrete
two-file override scenario reporting `1.0.0` and `1.1.0`. -/
theorem detectConfig_mismatch_witness :
    detectVersionFilesFromConfig opsCfg fsCfg "" cfgTwo NewManager =
      .error ("version mismatch: file 1 has version " ++
        semverString ⟨1, 1, 0⟩ ++ ", but file 0 has version " ++
        semverString ⟨1, 0, 0⟩) :=
  detectConfig_mismatch_and_sync.1 opsCfg fsCfg "" "Cargo.toml"
    "pyproject.toml" .rust .python ⟨1, 0, 0⟩ ⟨1, 1, 0⟩ NewManager
    (by rfl) (by rfl) (by rfl) (by rfl) (by decide)

/-- **C8** (counterexample).  In the concrete mismatch scenario detection
does fail and the message carries both version strings, but it does not
name either configured file: neither `Cargo.toml` nor `pyproject.toml`
occurs in the error text, which identifies the files by index only. -/
theorem detectConfig_mismatch_counterexample :
    detectVersionFilesFromConfig opsCfg fsCfg "" cfgTwo NewManager =
      .error "version mismatch: file 1 has version 1.1.0, but file 0 has version 1.0.0" ∧
    containsSub "Cargo.toml".data
      "version mismatch: file 1 has version 1.1.0, but file 0 has version 1.0.0".data
      = false ∧
    containsSub "pyproject.toml".data
      "version mismatch: file 1 has version 1.1.0, but file 0 has version 1.0.0".data
      = false := by
  refine ⟨by rfl, by decide, by decide⟩

/-- The automatic scan, characterised over any candidate table: it appends
one `ProjectFile` per existing candidate, keeps the last successfully parsed
version as the working version (the previous working version when none
parses), and leaves the override config untouched. -/
theorem detectAuto_foldl (ops : FormatOps) (fs : FS) (root : String) :
    ∀ (l : List AutoEntry) (st : VerManager),
      l.foldl (detectAutoStep ops fs root) st =
        { CurrentVersion := (autoParsedVersions ops fs root l).foldl
            (fun _ v => some v) st.CurrentVersion,
          ProjectFiles := st.ProjectFiles ++ autoProjectFiles fs root l,
          BumpConfig := st.BumpConfig } := by
  intro l
  induction l with
  | nil =>
    intro st
    simp only [List.foldl_nil, autoParsedVersions, autoProjectFiles,
      List.filterMap_nil, List.append_nil]
  | cons e rest ih =>
    intro st
    rw [List.foldl_cons, ih]
    simp only [autoParsedVersions, autoProjectFiles, List.filterMap_cons]
    rcases hex : fsRead fs (joinPath root e.Path) with _ | c
    · simp [detectAutoStep, hex]
    · rcases hx : extractVersionFromFile ops fs (joinPath root e.Path) e.Ftype
        with err | v
      · simp [detectAutoStep, hex, hx]
      · simp [detectAutoStep, hex, hx, List.foldl_cons, List.append_assoc]

/-- **C4** (amended).  Automatic detection scans the fixed priority-ordered
candidate table, records every existing candidate as a `ProjectFile`, sets
the working version to the *last* successfully parsed version among them
(each successful parse overwrites the previous; the prior working version is
kept when none parses), and performs no cross-file consistency check — the
function is total and never fails. -/
theorem detectAuto_spec (ops : FormatOps) (fs : FS) (root : String)
    (st : VerManager) :
    detectVersionFilesAutomatically ops fs root st =
      { CurrentVersion :=
          (autoParsedVersions ops fs root wellKnownVersionFiles).foldl
            (fun _ v => some v) st.CurrentVersion,
        ProjectFiles := st.ProjectFiles ++
          autoProjectFiles fs root wellKnownVersionFiles,
        BumpConfig := st.BumpConfig } :=
  detectAuto_foldl ops fs root wellKnownVersionFiles st

/-- **C4** (counterexample).  With `go.mod` parsing to `1.0.0` and
`Cargo.toml` parsing to `2.0.0`, the first successfully parsed version in
scan order is `1.0.0`, yet detection leaves the working version at `2.0.0`:
the last parse wins, not the first. -/
theorem detectAuto_first_counterexample :
    (autoParsedVersions opsAuto fsAuto "" wellKnownVersionFiles).head? =
      some ⟨1, 0, 0⟩ ∧
    (detectVersionFilesAutomatically opsAuto fsAuto "" NewManager).CurrentVersion
      = some ⟨2, 0, 0⟩ ∧
    (⟨2, 0, 0⟩ : SemVer) ≠ ⟨1, 0, 0⟩ :=
  ⟨rfl, rfl, by decide⟩

/-- **C10**.  With no `.bump` file present, `DetectVersionFiles` always
succeeds: existing candidates are registered even when their extraction
fails (the error is discarded — registration depends only on existence),
and when no candidate parses the working version silently remains the
constructor default `0.1.0`. -/
theorem detect_auto_mode_total (ops : FormatOps) (fs : FS) (root : String)
    (h : fsRead fs (joinPath root ".bump") = none) :
    ∃ st', DetectVersionFiles ops fs root NewManager = .ok st' ∧
      st'.ProjectFiles = autoProjectFiles fs root wellKnownVersionFiles ∧
      (autoParsedVersions ops fs root wellKnownVersionFiles = [] →
        st'.CurrentVersion = some ⟨0, 1, 0⟩) := by
  refine ⟨detectVersionFilesAutomatically ops fs root NewManager, ?_, ?_, ?_⟩
  · simp only [DetectVersionFiles, LoadBumpConfig, h]
  · rw [show detectVersionFilesAutomatically ops fs root NewManager =
      wellKnownVersionFiles.foldl (detectAutoStep ops fs root) NewManager
      from rfl, detectAuto_foldl]
    show NewManager.ProjectFiles ++ _ = _
    rw [show NewManager.ProjectFiles = [] from rfl, List.nil_append]
  · intro hempty
    rw [show detectVersionFilesAutomatically ops fs root NewManager =
      wellKnownVersionFiles.foldl (detectAutoStep ops fs root) NewManager
      from rfl, detectAuto_foldl, hempty]
    rfl

/-- Closed instance of `detect_auto_mode_total`: a root with only an
unparseable `Cargo.toml` — the file is registered, detection succeeds, and
the working version stays `0.1.0`. -/
theorem detect_auto_mode_total_witness :
    (∃ st', DetectVersionFiles trivialOps fsNoBump "" NewManager = .ok st' ∧
      st'.ProjectFiles = autoProjectFiles fsNoBump "" wellKnownVersionFiles ∧
      (autoParsedVersions trivialOps fsNoBump "" wellKnownVersionFiles = [] →
        st'.CurrentVersion = some ⟨0, 1, 0⟩)) ∧
    autoParsedVersions trivialOps fsNoBump "" wellKnownVersionFiles = [] :=
  ⟨detect_auto_mode_total trivialOps fsNoBump "" (by rfl), rfl⟩

end Ver

namespace Git

/-- A single whitespace-free non-empty run is one field. -/
theorem goFieldsAux_single (B : List Char) (hB : B ≠ [])
    (hBs : ∀ c ∈ B, goIsSpace c = false) : goFieldsAux B = [B] := by
  cases B with
  | nil => exact absurd rfl hB
  | cons b bs =>
    have hb : goIsSpace b = false := hBs b (by simp)
    have htk : bs.takeWhile (fun d => !goIsSpace d) = bs :=
      takeWhile_all_eq _ bs (fun x hx => by
        rw [hBs x (by simp [hx])]; rfl)
    have hdp : bs.dropWhile (fun d => !goIsSpace d) = [] :=
      dropWhile_all_eq _ bs (fun x hx => by
        rw [hBs x (by simp [hx])]; rfl)
    unfold goFieldsAux
    rw [if_neg (by rw [hb]; simp), htk, hdp]
    simp [goFieldsAux]

/-- Two whitespace-free non-empty runs separated by one space are exactly
two fields. -/
theorem goFieldsAux_pair (A B : List Char) (hA : A ≠ []) (hB : B ≠ [])
    (hAs : ∀ c ∈ A, goIsSpace c = false)
    (hBs : ∀ c ∈ B, goIsSpace c = false) :
    goFieldsAux (A ++ ' ' :: B) = [A, B] := by
  cases A with
  | nil => exact absurd rfl hA
  | cons a as =>
    have ha : goIsSpace a = false := hAs a (by simp)
    have htk : (as ++ ' ' :: B).takeWhile (fun d => !goIsSpace d) = as :=
      takeWhile_append_all _ as ' ' B
        (fun x hx => by rw [hAs x (by simp [hx])]; rfl)
        (by decide)
    have hdp : (as ++ ' ' :: B).dropWhile (fun d => !goIsSpace d) = ' ' :: B :=
      dropWhile_append_all _ as ' ' B
        (fun x hx => by rw [hAs x (by simp [hx])]; rfl)
        (by decide)
    have hskip : goFieldsAux (' ' :: B) = goFieldsAux B := by
      conv_lhs => unfold goFieldsAux
      rw [if_pos (by decide)]
    show goFieldsAux (a :: (as ++ ' ' :: B)) = [a :: as, B]
    unfold goFieldsAux
    rw [if_neg (by rw [ha]; simp), htk, hdp, hskip,
      goFieldsAux_single B hB hBs]

/-- **C6**.  Submodule status-line parsing rejects every line shorter than
41 characters; every accepted line has a commit field of exactly 40
hexadecimal characters, a non-empty path, and a name equal to the final
path segment; and for every 40-character hex string paired with a
whitespace-free non-empty path, parsing the formatted `<hash> <path>` line
returns exactly that hash, path and derived name. -/
theorem parseSubmoduleStatusLine_spec :
    (∀ line : String, line.length < 41 →
      ∃ e, parseSubmoduleStatusLine line = .error e) ∧
    (∀ (line : String) (sm : Submodule),
      parseSubmoduleStatusLine line = .ok sm →
      sm.Commit.length = 40 ∧ isHexString sm.Commit = true ∧
      sm.Path ≠ "" ∧ sm.Name = lastSegment sm.Path) ∧
    (∀ hash path : String, hash.length = 40 → isHexString hash = true →
      path ≠ "" → (∀ c ∈ path.data, goIsSpace c = false) →
      parseSubmoduleStatusLine (hash ++ " " ++ path) =
        .ok { Name := lastSegment path, Path := path, URL := "",
              Commit := hash }) := by
  refine ⟨?_, ?_, ?_⟩
  · intro line hlen
    refine ⟨"line too short: " ++ line, ?_⟩
    unfold parseSubmoduleStatusLine
    rw [if_pos]
    exact hlen
  · intro line sm h
    unfold parseSubmoduleStatusLine at h
    split at h
    · exact absurd h (by simp)
    · dsimp only at h
      split at h
      all_goals (
        split at h
        · exact absurd h (by simp)
        · split at h
          · exact absurd h (by simp)
          · rename_i hok hfmt
            simp only [Except.ok.injEq] at h
            push_neg at hok hfmt
            rw [← h]
            refine ⟨hfmt.1, ?_, hok.2, rfl⟩
            have hx := hfmt.2
            simp only [Bool.not_eq_false] at hx
            exact hx)
  · intro hash path hlen hhex hpne hspace
    have hlen' : hash.data.length = 40 := hlen
    have hpd : path.data ≠ [] := by
      intro h0
      apply hpne
      have hmk : path = String.mk path.data := rfl
      rw [hmk, h0]
    have hdata : (hash ++ " " ++ path).data = hash.data ++ ' ' :: path.data := by
      rw [show (hash ++ " " ++ path).data = (hash.data ++ [' ']) ++ path.data
        from rfl, List.append_assoc]
      rfl
    have hdlen : (hash ++ " " ++ path).data.length = 41 + path.data.length := by
      rw [hdata]
      simp only [List.length_append, List.length_cons, hlen']
      omega
    have htake : (hash ++ " " ++ path).data.take CommitHashLength =
        hash.data := by
      rw [hdata, show CommitHashLength = hash.data.length from hlen'.symm]
      exact List.take_left hash.data _
    have hhexne : ∀ c ∈ hash.data, goIsSpace c = false := by
      intro c hc
      have hcx : isHexChar c = true := by
        have hall := hhex
        unfold isHexString isHexList at hall
        exact List.all_eq_true.mp hall c hc
      by_contra hsp
      simp only [Bool.not_eq_false] at hsp
      simp only [goIsSpace, Bool.or_eq_true, beq_iff_eq] at hsp
      rcases hsp with (((((((h1|h1)|h1)|h1)|h1)|h1)|h1)|h1) <;>
        (subst h1; revert hcx; decide)
    have hfields : goFields (hash ++ " " ++ path) = [hash, path] := by
      unfold goFields
      rw [hdata, goFieldsAux_pair hash.data path.data
        (by intro h0; rw [h0] at hlen'; exact absurd hlen' (by decide))
        hpd hhexne hspace]
      rfl
    unfold parseSubmoduleStatusLine
    rw [if_neg (by rw [hdlen]; simp only [CommitHashLength]; omega)]
    dsimp only
    have hc1 : CommitHashLength ≤ (hash ++ " " ++ path).data.length ∧
        isHexList (List.take CommitHashLength (hash ++ " " ++ path).data)
          = true := by
      constructor
      · rw [hdlen]; simp only [CommitHashLength]; omega
      · rw [htake]; exact hhex
    rw [if_pos hc1, hfields]
    dsimp only
    have hcne : ¬(hash = "" ∨ path = "") := by
      push_neg
      refine ⟨?_, hpne⟩
      intro h0
      rw [h0] at hlen'
      exact absurd hlen' (by decide)
    rw [if_neg hcne]
    have hfmtne : ¬(hash.data.length ≠ CommitHashLength ∨
        isHexString hash = false) := by
      push_neg
      refine ⟨by rw [hlen']; rfl, ?_⟩
      simp [hhex]
    rw [if_neg hfmtne]

/-- Closed instance of `parseSubmoduleStatusLine_spec`: a short line is
rejected, and a concrete `<hash> <path>` line round-trips. -/
theorem parseSubmoduleStatusLine_spec_witness :
    (∃ e, parseSubmoduleStatusLine "short" = .error e) ∧
    parseSubmoduleStatusLine
        ("1234567890abcdef1234567890abcdef12345678" ++ " " ++ "libs/mylib") =
      .ok { Name := "mylib", Path := "libs/mylib", URL := "",
            Commit := "1234567890abcdef1234567890abcdef12345678" } := by
  refine ⟨parseSubmoduleStatusLine_spec.1 "short" (by decide), ?_⟩
  have h := parseSubmoduleStatusLine_spec.2.2
    "1234567890abcdef1234567890abcdef12345678" "libs/mylib"
    (by decide) (by decide) (by decide) (by decide)
  rw [h]
  rfl

end Git

namespace Ver

/-- The replacement scan of the empty content is empty. -/
theorem replaceAllUpd_nil (v : List Char) : replaceAllUpd v [] = [] := by
  simp [replaceAllUpd]

/-- Unfolding equation of the replacement scan at a matching position. -/
theorem replaceAllUpd_cons_some (v : List Char) (c : Char)
    (cs g1 rest : List Char) (h : tryUpdMatchAt (c :: cs) = some (g1, rest)) :
    replaceAllUpd v (c :: cs) = g1 ++ v ++ replaceAllUpd v rest := by
  rw [replaceAllUpd]
  split
  · rename_i g1' rest' heq
    rw [heq] at h
    simp only [Option.some.injEq, Prod.mk.injEq] at h
    rw [h.1, h.2]
  · rename_i heq
    rw [heq] at h
    exact absurd h (by simp)

/-- Unfolding equation of the leftmost-capture search. -/
theorem findExtCapture_cons (c : Char) (cs : List Char) :
    findExtCapture (c :: cs) =
      (match tryExtMatchAt (c :: cs) with
       | some cap => some cap
       | none => findExtCapture cs) := rfl

/-- A list is a prefix of itself followed by anything. -/
theorem hasPre_self_append (A B : List Char) : hasPre A (A ++ B) = true := by
  induction A with
  | nil => rfl
  | cons a s ih => simp [hasPre, ih]

/-- Blanks and tabs are regexp space characters. -/
theorem reSpace_of_blank (c : Char) (h : c = ' ' ∨ c = '\t') :
    reSpace c = true := by
  rcases h with h | h <;> (subst h; decide)

/-- A digit or dot is never a regexp space character. -/
theorem digitOrDot_not_reSpace (c : Char) (h : isDigitOrDot c = true) :
    reSpace c = false := by
  by_contra hsp
  simp only [Bool.not_eq_false] at hsp
  simp only [reSpace, Bool.or_eq_true, beq_iff_eq] at hsp
  rcases hsp with ((((h1 | h1) | h1) | h1) | h1) <;>
    (subst h1; revert h; decide)

/-- The pattern head consumes exactly `version<sp1>=` on a canonical
assignment. -/
theorem matchKeyHead_canonical (sp1 tail : List Char)
    (hsp1 : ∀ c ∈ sp1, reSpace c = true) :
    matchKeyHead (versionLit ++ sp1 ++ '=' :: tail) =
      some (versionLit ++ sp1 ++ ['='], tail) := by
  unfold matchKeyHead
  rw [if_pos (by
    rw [List.append_assoc]
    exact hasPre_self_append versionLit _)]
  have hdrop : (versionLit ++ sp1 ++ '=' :: tail).drop 7 = sp1 ++ '=' :: tail := by
    rw [List.append_assoc, show (7 : Nat) = versionLit.length from rfl,
      List.drop_left]
  rw [hdrop, dropWhile_append_all _ sp1 '=' tail hsp1 (by decide),
    takeWhile_append_all _ sp1 '=' tail hsp1 (by decide)]
  rfl

/-- On a canonical assignment tail the update pattern captures the whole
value and consumes the line. -/
theorem updTail_canonical (sp2 value : List Char)
    (hsp2 : ∀ c ∈ sp2, reSpace c = true) (hvne : value ≠ [])
    (hvhead : ∀ c, value.head? = some c → reSpace c = false)
    (hvcr : ∀ c ∈ value, notCRLF c = true) :
    updTail (sp2 ++ value) = some (sp2, value, []) := by
  obtain ⟨x, value', rfl⟩ : ∃ x value', value = x :: value' := by
    cases value with
    | nil => exact absurd rfl hvne
    | cons a b => exact ⟨a, b, rfl⟩
  have hx : reSpace x = false := hvhead x rfl
  unfold updTail
  rw [dropWhile_append_all _ sp2 x value' hsp2 hx,
    takeWhile_append_all _ sp2 x value' hsp2 hx]
  dsimp only
  rw [takeWhile_all_eq _ value' (fun c hc => hvcr c (by simp [hc])),
    dropWhile_all_eq _ value' (fun c hc => hvcr c (by simp [hc]))]

/-- The update pattern matches a whole canonical assignment, keeping
`version<sp1>=<sp2>` as group 1. -/
theorem tryUpdMatchAt_canonical (sp1 sp2 value : List Char)
    (hsp1 : ∀ c ∈ sp1, reSpace c = true)
    (hsp2 : ∀ c ∈ sp2, reSpace c = true) (hvne : value ≠ [])
    (hvhead : ∀ c, value.head? = some c → reSpace c = false)
    (hvcr : ∀ c ∈ value, notCRLF c = true) :
    tryUpdMatchAt (versionLit ++ sp1 ++ '=' :: (sp2 ++ value)) =
      some (versionLit ++ sp1 ++ ['='] ++ sp2, []) := by
  unfold tryUpdMatchAt
  rw [matchKeyHead_canonical sp1 (sp2 ++ value) hsp1]
  dsimp only
  rw [updTail_canonical sp2 value hsp2 hvne hvhead hvcr]

/-- On a digits-and-dots value the extraction pattern captures it fully. -/
theorem extTail_canonical (sp2 V : List Char)
    (hsp2 : ∀ c ∈ sp2, reSpace c = true) (hVne : V ≠ [])
    (hV : ∀ c ∈ V, isDigitOrDot c = true) :
    extTail (sp2 ++ V) = some V := by
  obtain ⟨x, V', rfl⟩ : ∃ x V', V = x :: V' := by
    cases V with
    | nil => exact absurd rfl hVne
    | cons a b => exact ⟨a, b, rfl⟩
  have hx : reSpace x = false := digitOrDot_not_reSpace x (hV x (by simp))
  unfold extTail
  rw [dropWhile_append_all _ sp2 x V' hsp2 hx,
    takeWhile_all_eq _ (x :: V') hV]

/-- The extraction pattern captures the value of a canonical assignment. -/
theorem tryExtMatchAt_canonical (sp1 sp2 V : List Char)
    (hsp1 : ∀ c ∈ sp1, reSpace c = true)
    (hsp2 : ∀ c ∈ sp2, reSpace c = true) (hVne : V ≠ [])
    (hV : ∀ c ∈ V, isDigitOrDot c = true) :
    tryExtMatchAt (versionLit ++ sp1 ++ '=' :: (sp2 ++ V)) = some V := by
  unfold tryExtMatchAt
  rw [matchKeyHead_canonical sp1 (sp2 ++ V) hsp1]
  dsimp only
  rw [extTail_canonical sp2 V hsp2 hVne hV]

/-- **C5** (amended).  The extract-after-update round-trip law holds for
the `library.properties` format on contents consisting of a canonical
`version<ws>=<ws><value>` assignment (whitespace runs of blanks/tabs, value
non-empty, CR/LF-free and not beginning with whitespace) and any
syntactically valid dotted version made of digits and dots: updating to `V`
and extracting returns exactly the version `V` parses to.  The law as
claimed — for *every* content string — is refuted by
`properties_roundtrip_counterexample`. -/
theorem properties_roundtrip (sp1 sp2 value V : List Char) (sv : SemVer)
    (hsp1 : ∀ c ∈ sp1, c = ' ' ∨ c = '\t')
    (hsp2 : ∀ c ∈ sp2, c = ' ' ∨ c = '\t')
    (hvne : value ≠ [])
    (hvcr : ∀ c ∈ value, notCRLF c = true)
    (hvhead : ∀ c, value.head? = some c → reSpace c = false)
    (hV : ∀ c ∈ V, isDigitOrDot c = true)
    (hparse : parseSemverNumeric (String.mk V) = .ok sv) :
    extractLibraryPropertiesVersion (updateLibraryPropertiesVersion
      (String.mk (versionLit ++ sp1 ++ '=' :: (sp2 ++ value)))
      (String.mk V)) = .ok sv := by
  have hsp1' : ∀ c ∈ sp1, reSpace c = true :=
    fun c hc => reSpace_of_blank c (hsp1 c hc)
  have hsp2' : ∀ c ∈ sp2, reSpace c = true :=
    fun c hc => reSpace_of_blank c (hsp2 c hc)
  have hVne : V ≠ [] := by
    intro h0
    rw [h0] at hparse
    rw [show parseSemverNumeric (String.mk []) =
      .error "Invalid Semantic Version" from rfl] at hparse
    exact absurd hparse (by simp)
  have hform : versionLit ++ sp1 ++ '=' :: (sp2 ++ value) =
      'v' :: ((['e', 'r', 's', 'i', 'o', 'n'] ++ sp1) ++
        '=' :: (sp2 ++ value)) := rfl
  have hupd : replaceAllUpd V (versionLit ++ sp1 ++ '=' :: (sp2 ++ value)) =
      (versionLit ++ sp1 ++ ['='] ++ sp2) ++ V := by
    have hm : tryUpdMatchAt ('v' :: ((['e', 'r', 's', 'i', 'o', 'n'] ++ sp1) ++
        '=' :: (sp2 ++ value))) =
        some (versionLit ++ sp1 ++ ['='] ++ sp2, []) := by
      rw [← hform]
      exact tryUpdMatchAt_canonical sp1 sp2 value hsp1' hsp2' hvne hvhead hvcr
    rw [hform, replaceAllUpd_cons_some V _ _ _ _ hm, replaceAllUpd_nil,
      List.append_nil]
  have hdata : (updateLibraryPropertiesVersion
      (String.mk (versionLit ++ sp1 ++ '=' :: (sp2 ++ value)))
      (String.mk V)).data = (versionLit ++ sp1 ++ ['='] ++ sp2) ++ V := by
    rw [show (updateLibraryPropertiesVersion
      (String.mk (versionLit ++ sp1 ++ '=' :: (sp2 ++ value)))
      (String.mk V)).data =
      replaceAllUpd V (versionLit ++ sp1 ++ '=' :: (sp2 ++ value)) from rfl,
      hupd]
  unfold extractLibraryPropertiesVersion
  rw [hdata]
  have hassoc : (versionLit ++ sp1 ++ ['='] ++ sp2) ++ V =
      versionLit ++ sp1 ++ '=' :: (sp2 ++ V) := by
    simp [List.append_assoc]
  rw [hassoc]
  have hform2 : versionLit ++ sp1 ++ '=' :: (sp2 ++ V) =
      'v' :: ((['e', 'r', 's', 'i', 'o', 'n'] ++ sp1) ++ '=' :: (sp2 ++ V)) :=
    rfl
  have hx : tryExtMatchAt ('v' :: ((['e', 'r', 's', 'i', 'o', 'n'] ++ sp1) ++
      '=' :: (sp2 ++ V))) = some V := by
    rw [← hform2]
    exact tryExtMatchAt_canonical sp1 sp2 V hsp1' hsp2' hVne hV
  rw [hform2, findExtCapture_cons, hx]
  exact hparse

/-- **C5** (counterexample).  The round-trip law fails for the
`library.properties` format on a content with no version key: updating the
empty content is the identity (no regexp match to rewrite), and extraction
from the result fails instead of returning the written version. -/
theorem properties_roundtrip_counterexample :
    parseSemverNumeric "1.2.3" = .ok ⟨1, 2, 3⟩ ∧
    updateLibraryPropertiesVersion "" "1.2.3" = "" ∧
    extractLibraryPropertiesVersion
        (updateLibraryPropertiesVersion "" "1.2.3") =
      .error "no version found in library.properties" := by
  have hupd : updateLibraryPropertiesVersion "" "1.2.3" = "" := by
    rw [show updateLibraryPropertiesVersion "" "1.2.3" =
      String.mk (replaceAllUpd "1.2.3".data []) from rfl, replaceAllUpd_nil]
  refine ⟨by rfl, hupd, ?_⟩
  rw [hupd]
  rfl

/-- Closed instance of `properties_roundtrip`: rewriting a canonical
properties line to `1.3.0` and extracting yields `1.3.0`. -/
theorem properties_roundtrip_witness :
    extractLibraryPropertiesVersion
        (updateLibraryPropertiesVersion "version = 1.0.0" "1.3.0") =
      .ok ⟨1, 3, 0⟩ :=
  properties_roundtrip [' '] [' '] "1.0.0".data "1.3.0".data ⟨1, 3, 0⟩
    (by decide) (by decide) (by decide) (by decide) (by decide) (by decide)
    (by rfl)

end Ver

end Bump
